import Mathlib

/-!
# Verification of the repository documentation-extraction pipeline

This development embeds the deterministic core of a documentation / API
extraction pipeline, translated from its TypeScript source:

* `extractAllApis` — the multi-language API signature extractor
  (tool `extract-all-apis`),
* `parseMarkdown` — the markdown structural parser (tool `parse-markdown`),
* `analyzeRepository` — the repository source resolver (tool `analyze-repository`),
* `fetchAllDocs` — the multi-phase file retriever (tool `fetch-all-docs`),
* `scrapeDocumentation` — the generic documentation crawler
  (tool `scrape-documentation`),
* `generateOutput` — the output assembler (tool `generate-output`).

Network access is modelled by an oracle mapping request URLs to responses
(success body, HTTP error status, or network exception).  JavaScript regular
expressions are modelled by a small backtracking engine (`JsRe` namespace)
whose patterns are compiled from the very same source strings that appear in
the TypeScript code.  JavaScript string primitives (`trim`, `split`,
`includes`, ...) are reimplemented with their ECMAScript semantics on ASCII
text.

Theorems about the claims come after all definitions.
-/

/-! ## JavaScript string primitives -/

namespace JsStr

/-- ECMAScript `String.prototype.trim` white-space set (ASCII part plus
no-break space; the sources only ever trim ASCII text). -/
def isJsSpace (c : Char) : Bool :=
  c = ' ' || c = '\t' || c = '\n' || c = '\r' ||
  c = (Char.ofNat 11) || c = (Char.ofNat 12) || c = (Char.ofNat 160)

def trimLeftL : List Char → List Char
  | [] => []
  | c :: cs => if isJsSpace c then trimLeftL cs else c :: cs

def trimL (l : List Char) : List Char :=
  ((trimLeftL l.reverse).reverse |> trimLeftL)

/-- `String.prototype.trim`. -/
def jsTrim (s : String) : String := ⟨trimL s.data⟩

/-- Is `p` a prefix of `l`? -/
def isPre : List Char → List Char → Bool
  | [], _ => true
  | _ :: _, [] => false
  | p :: ps, c :: cs => p = c && isPre ps cs

/-- `String.prototype.startsWith`. -/
def jsStartsWith (s pre : String) : Bool := isPre pre.data s.data

/-- `String.prototype.endsWith`. -/
def jsEndsWith (s suf : String) : Bool := isPre suf.data.reverse s.data.reverse

/-- Does `sub` occur as a contiguous substring of `l`? -/
def containsL (l sub : List Char) : Bool :=
  match l with
  | [] => sub.isEmpty
  | _ :: rest => isPre sub l || containsL rest sub

/-- `String.prototype.includes`. -/
def jsIncludes (s sub : String) : Bool := containsL s.data sub.data

/-- ASCII `String.prototype.toUpperCase`. -/
def jsToUpper (s : String) : String := ⟨s.data.map Char.toUpper⟩

/-- ASCII `String.prototype.toLowerCase`. -/
def jsToLower (s : String) : String := ⟨s.data.map Char.toLower⟩

/-- One splitting step: strip a leading match of `sep`, or keep the head
character in the current chunk (structural recursion on a fuel bound so
that the definition reduces; `jsSplit` supplies ample fuel). -/
def splitL (sep : List Char) : Nat → List Char → List Char → List (List Char)
  | 0, acc, _ => [acc.reverse]
  | _ + 1, acc, [] => [acc.reverse]
  | fuel + 1, acc, c :: cs =>
    if sep ≠ [] && isPre sep (c :: cs) then
      acc.reverse :: splitL sep fuel [] ((c :: cs).drop sep.length)
    else
      splitL sep fuel (c :: acc) cs

/-- `String.prototype.split` with a non-empty string separator
(every use in the sources has a non-empty literal separator). -/
def jsSplit (s sep : String) : List String :=
  (splitL sep.data (s.data.length + 1) [] s.data).map (fun l => ⟨l⟩)

/-- `String.prototype.substring` (clamps both indices and swaps them when
out of order). -/
def jsSubstring (s : String) (a b : Nat) : String :=
  let n := s.data.length
  let a' := min a n
  let b' := min b n
  let lo := min a' b'
  let hi := max a' b'
  ⟨(s.data.drop lo).take (hi - lo)⟩

/-- `s.replace(pat, repl)` with a string pattern: replaces the first
occurrence only. -/
def replaceFirstL (l pat repl : List Char) : List Char :=
  match l with
  | [] => []
  | c :: rest =>
    if pat ≠ [] && isPre pat l then repl ++ l.drop pat.length
    else c :: replaceFirstL rest pat repl

def jsReplaceFirst (s pat repl : String) : String :=
  ⟨replaceFirstL s.data pat.data repl.data⟩

/-- `s.replace(re, repl)` where `re` matches a single literal character with
the `g` flag (used for `.replace(/\./g, ...)`). -/
def replaceAllChL (l : List Char) (c : Char) (repl : List Char) : List Char :=
  match l with
  | [] => []
  | x :: rest => (if x = c then repl else [x]) ++ replaceAllChL rest c repl

def jsReplaceAllCh (s : String) (c : Char) (repl : String) : String :=
  ⟨replaceAllChL s.data c repl.data⟩

/-- `Array.prototype.join` on strings. -/
def jsJoin (xs : List String) (sep : String) : String :=
  match xs with
  | [] => ""
  | x :: rest => rest.foldl (fun acc y => acc ++ sep ++ y) x

/-- JavaScript `x || dflt` where `x : string | undefined` (`none` models
`undefined`; the empty string is falsy). -/
def jsOrStr (x : Option String) (dflt : String) : String :=
  match x with
  | none => dflt
  | some s => if s = "" then dflt else s

end JsStr

/-! ## A small ECMAScript regular-expression engine

Patterns are compiled from the very regex source strings appearing in the
TypeScript code.  Supported constructs (everything those sources use):
literals, escapes, character classes with ranges and `\w \s \d \W \S \D`,
`.`, `^`/`$` (with the `m` flag), alternation, `(?:...)` and capturing
groups, the quantifiers `* + ? {m} {m,} {m,n}` and their lazy variants, and
the flags `g`, `i`, `m`.  Matching follows the backtracking semantics of
ECMAScript: leftmost match, leftmost alternative first, greedy quantifiers
try longer first, lazy ones shorter first, and a quantified body that
matches the empty string stops the iteration. -/

namespace JsRe

inductive ClsItem where
  | ch (c : Char)
  | range (lo hi : Char)
  | wordC | spaceC | digitC | nWordC | nSpaceC | nDigitC
deriving Repr, DecidableEq

inductive RE where
  | eps
  | nix
  | lit (c : Char)
  | cls (neg : Bool) (items : List ClsItem)
  | dot
  | bol
  | eol
  | seq (a b : RE)
  | alt (a b : RE)
  | star (lazy : Bool) (r : RE)
  | opt (lazy : Bool) (r : RE)
  | grp (i : Nat) (r : RE)
deriving Repr, DecidableEq

/-- `\w` = `[A-Za-z0-9_]`. -/
def isWordCh (c : Char) : Bool :=
  ( 'a' ≤ c && c ≤ 'z') || ( 'A' ≤ c && c ≤ 'Z') || ( '0' ≤ c && c ≤ '9') || c = '_'

/-- `\s` (ASCII part plus no-break space). -/
def isSpaceCh (c : Char) : Bool := JsStr.isJsSpace c

def isDigitCh (c : Char) : Bool := '0' ≤ c && c ≤ '9'

/-- ECMAScript line terminators. -/
def isLineTerm (c : Char) : Bool :=
  c = '\n' || c = '\r' || c = (Char.ofNat 0x2028) || c = (Char.ofNat 0x2029)

def clsItemMatch1 (c : Char) : ClsItem → Bool
  | .ch x => c = x
  | .range lo hi => lo ≤ c && c ≤ hi
  | .wordC => isWordCh c
  | .spaceC => isSpaceCh c
  | .digitC => isDigitCh c
  | .nWordC => !isWordCh c
  | .nSpaceC => !isSpaceCh c
  | .nDigitC => !isDigitCh c

/-- Class-atom match with optional case folding (`i` flag): the character
matches if itself, its lower-case or its upper-case form matches, which
coincides with ECMAScript canonicalisation on ASCII. -/
def clsItemMatch (ic : Bool) (c : Char) (it : ClsItem) : Bool :=
  clsItemMatch1 c it ||
  (ic && (clsItemMatch1 c.toLower it || clsItemMatch1 c.toUpper it))

def clsMatch (ic neg : Bool) (items : List ClsItem) (c : Char) : Bool :=
  let m := items.any (clsItemMatch ic c)
  if neg then !m else m

def litMatch (ic : Bool) (p c : Char) : Bool :=
  p = c || (ic && (p.toLower = c.toLower))

/-- Capture list; entry `i` is the span of group `i+1`. -/
abbrev Caps := List (Option (Nat × Nat))

def setCap (caps : Caps) (i : Nat) (sp : Nat × Nat) : Caps :=
  let padded := caps ++ List.replicate ((i + 1) - caps.length) none
  padded.set i (some sp)

def charAt? : List Char → Nat → Option Char
  | [], _ => none
  | c :: _, 0 => some c
  | _ :: cs, n + 1 => charAt? cs n

structure Flags where
  g : Bool
  ic : Bool
  ml : Bool
deriving Repr, DecidableEq

/-- Backtracking matcher in continuation style.  `fuel` bounds the depth of
the call chain; `exec` supplies enough for the longest possible chain. -/
def mtch (fl : Flags) (inp : List Char) :
    Nat → RE → Nat → Caps → (Nat → Caps → Option (Nat × Caps)) → Option (Nat × Caps)
  | 0, _, _, _, _ => none
  | fuel + 1, r, pos, caps, k =>
    match r with
    | .eps => k pos caps
    | .nix => none
    | .lit c =>
      match charAt? inp pos with
      | some c' => if litMatch fl.ic c c' then k (pos + 1) caps else none
      | none => none
    | .cls neg items =>
      match charAt? inp pos with
      | some c' => if clsMatch fl.ic neg items c' then k (pos + 1) caps else none
      | none => none
    | .dot =>
      match charAt? inp pos with
      | some c' => if isLineTerm c' then none else k (pos + 1) caps
      | none => none
    | .bol =>
      if pos = 0 then k pos caps
      else if fl.ml && (charAt? inp (pos - 1)).any isLineTerm then k pos caps
      else none
    | .eol =>
      if pos = inp.length then k pos caps
      else if fl.ml && (charAt? inp pos).any isLineTerm then k pos caps
      else none
    | .seq a b => mtch fl inp fuel a pos caps (fun p c => mtch fl inp fuel b p c k)
    | .alt a b =>
      (mtch fl inp fuel a pos caps k) <|> (mtch fl inp fuel b pos caps k)
    | .star lz r' =>
      if lz then
        (k pos caps) <|>
          (mtch fl inp fuel r' pos caps (fun p c =>
            if p = pos then none else mtch fl inp fuel (.star lz r') p c k))
      else
        (mtch fl inp fuel r' pos caps (fun p c =>
          if p = pos then none else mtch fl inp fuel (.star lz r') p c k)) <|>
          (k pos caps)
    | .opt lz r' =>
      if lz then (k pos caps) <|> (mtch fl inp fuel r' pos caps k)
      else (mtch fl inp fuel r' pos caps k) <|> (k pos caps)
    | .grp i r' => mtch fl inp fuel r' pos caps (fun p c => k p (setCap c i (pos, p)))

def reSize : RE → Nat
  | .seq a b => reSize a + reSize b + 1
  | .alt a b => reSize a + reSize b + 1
  | .star _ r => reSize r + 1
  | .opt _ r => reSize r + 1
  | .grp _ r => reSize r + 1
  | _ => 1

/-- A match: start, end, and capture spans. -/
structure ReM where
  start : Nat
  stop : Nat
  caps : Caps
deriving Repr, DecidableEq

def fuelFor (r : RE) (inp : List Char) : Nat :=
  (reSize r + 2) * (inp.length + 2) + 16

/-- Attempt a match anchored exactly at `pos`. -/
def matchAt (fl : Flags) (r : RE) (inp : List Char) (pos : Nat) : Option ReM :=
  match mtch fl inp (fuelFor r inp) r pos [] (fun p c => some (p, c)) with
  | some (stop, caps) => some ⟨pos, stop, caps⟩
  | none => none

/-- First match at or after `pos` (leftmost). -/
def findFrom (fl : Flags) (r : RE) (inp : List Char) : Nat → Nat → Option ReM
  | _, 0 => none
  | pos, tries + 1 =>
    match matchAt fl r inp pos with
    | some m => some m
    | none => if pos ≥ inp.length then none else findFrom fl r inp (pos + 1) tries

def findFirst (fl : Flags) (r : RE) (inp : List Char) : Option ReM :=
  findFrom fl r inp 0 (inp.length + 1)

/-- The `while ((m = re.exec(s)) !== null)` loop with the `g` flag:
successive non-overlapping matches, advancing past empty matches (none of
the embedded patterns can match the empty string, in which case this is
exactly the ECMAScript loop). -/
def execAllFrom (fl : Flags) (r : RE) (inp : List Char) : Nat → Nat → List ReM
  | _, 0 => []
  | pos, tries + 1 =>
    match findFrom fl r inp pos (inp.length + 1 - pos) with
    | none => []
    | some m =>
      let next := if m.stop = m.start then m.stop + 1 else m.stop
      m :: execAllFrom fl r inp next tries

def execAll (fl : Flags) (r : RE) (inp : List Char) : List ReM :=
  execAllFrom fl r inp 0 (inp.length + 1)

/-- The whole text matched by `m`. -/
def fullOf (inp : List Char) (m : ReM) : String :=
  ⟨(inp.drop m.start).take (m.stop - m.start)⟩

/-- Text captured by group `i` (1-based); `none` models `undefined`. -/
def grpOf (inp : List Char) (m : ReM) (i : Nat) : Option String :=
  match i with
  | 0 => some (fullOf inp m)
  | j + 1 =>
    match m.caps.getD j none with
    | some (a, b) => some ⟨(inp.drop a).take (b - a)⟩
    | none => none

end JsRe

namespace JsRe

/-! ### Parsing regex source strings

A recursive-descent parser from the regex source syntax to `RE`.  `fuel`
bounds the descent; `reC` supplies more than enough.  Group numbers are
assigned left to right, as in ECMAScript.  A `{` that does not begin a
well-formed quantifier is a literal (Annex B), which the sources rely on
(e.g. `\)\s*{`). -/

def seqList : List RE → RE
  | [] => .eps
  | [r] => r
  | r :: rest => .seq r (seqList rest)

/-- `r{n}` expansion (capture groups keep their indices in every copy; the
final iteration wins, as in ECMAScript). -/
def repExact (r : RE) : Nat → RE
  | 0 => .eps
  | 1 => r
  | n + 1 => .seq r (repExact r n)

/-- Expansion of up to `n` further copies of `r`: `(?:r(?:r...)?)?`. -/
def repUpTo (lz : Bool) (r : RE) : Nat → RE
  | 0 => .eps
  | n + 1 => .opt lz (.seq r (repUpTo lz r n))

/-- Parse a (decimal) number from the head of the input. -/
def pNum : List Char → Option (Nat × List Char)
  | cs =>
    let digs := cs.takeWhile isDigitCh
    if digs.isEmpty then none
    else some (digs.foldl (fun a c => a * 10 + (c.toNat - 48)) 0, cs.drop digs.length)

/-- Parse the inside of a `{...}` quantifier, after the `{`. -/
def pBraceQ (cs : List Char) : Option ((Nat × Option (Option Nat)) × List Char) :=
  match pNum cs with
  | none => none
  | some (m, rest) =>
    match rest with
    | '}' :: rest' => some ((m, none), rest')
    | ',' :: '}' :: rest' => some ((m, some none), rest')
    | ',' :: rest' =>
      match pNum rest' with
      | some (n, '}' :: rest'') => some ((m, some (some n)), rest'')
      | _ => none
    | _ => none

/-- A class escape character. -/
def pClsEsc (c : Char) : ClsItem :=
  if c = 'w' then .wordC
  else if c = 's' then .spaceC
  else if c = 'd' then .digitC
  else if c = 'W' then .nWordC
  else if c = 'S' then .nSpaceC
  else if c = 'D' then .nDigitC
  else if c = 'n' then .ch '\n'
  else if c = 't' then .ch '\t'
  else if c = 'r' then .ch '\r'
  else if c = 'f' then .ch (Char.ofNat 12)
  else if c = 'v' then .ch (Char.ofNat 11)
  else if c = '0' then .ch (Char.ofNat 0)
  else .ch c

/-- Parse the items of a character class, after `[` (and `^` if present),
up to the closing `]`. -/
def pClsItems : Nat → List Char → Option (List ClsItem × List Char)
  | 0, _ => none
  | _, [] => none
  | fuel + 1, cs =>
    match cs with
    | [] => none
    | ']' :: rest => some ([], rest)
    | '\\' :: e :: rest =>
      let it := pClsEsc e
      -- a range can only join two plain characters
      match it, rest with
      | .ch lo, '-' :: r2 :: rest' =>
        if r2 = ']' then
          match pClsItems fuel rest with
          | some (its, rest'') => some (.ch lo :: its, rest'')
          | none => none
        else
          match r2, rest' with
          | '\\', e2 :: rest'' =>
            match pClsEsc e2 with
            | .ch hi =>
              match pClsItems fuel rest'' with
              | some (its, rest3) => some (.range lo hi :: its, rest3)
              | none => none
            | _ => none
          | _, _ =>
            match pClsItems fuel rest' with
            | some (its, rest'') => some (.range lo r2 :: its, rest'')
            | none => none
      | _, _ =>
        match pClsItems fuel rest with
        | some (its, rest') => some (it :: its, rest')
        | none => none
    | c :: '-' :: r2 :: rest' =>
      if r2 = ']' then
        match pClsItems fuel ('-' :: r2 :: rest') with
        | some (its, rest'') => some (.ch c :: its, rest'')
        | none => none
      else if r2 = '\\' then
        match rest' with
        | e2 :: rest'' =>
          match pClsEsc e2 with
          | .ch hi =>
            match pClsItems fuel rest'' with
            | some (its, rest3) => some (.range c hi :: its, rest3)
            | none => none
          | _ => none
        | [] => none
      else
        match pClsItems fuel rest' with
        | some (its, rest'') => some (.range c r2 :: its, rest'')
        | none => none
    | c :: rest =>
      match pClsItems fuel rest with
      | some (its, rest') => some (.ch c :: its, rest')
      | none => none

/-- Parse a top-level escape into an atom. -/
def pEsc (c : Char) : RE :=
  if c = 'w' then .cls false [.wordC]
  else if c = 's' then .cls false [.spaceC]
  else if c = 'd' then .cls false [.digitC]
  else if c = 'W' then .cls true [.wordC]
  else if c = 'S' then .cls true [.spaceC]
  else if c = 'D' then .cls true [.digitC]
  else if c = 'n' then .lit '\n'
  else if c = 't' then .lit '\t'
  else if c = 'r' then .lit '\r'
  else if c = 'f' then .lit (Char.ofNat 12)
  else if c = 'v' then .lit (Char.ofNat 11)
  else .lit c

/-- Parser positions: alternation, sequence, quantified atom, atom. -/
inductive PMode where
  | palt | psq | patomq | patom
deriving Repr, DecidableEq

/-- Recursive-descent parsing of the four grammar levels in one
fuel-structural function (so that it reduces): alternation `seq ('|' alt)?`,
sequences ending at `|`/`)`/end, and atoms with optional quantifiers. -/
def pRe : Nat → PMode → List Char → Nat → Option (RE × List Char × Nat)
  | 0, _, _, _ => none
  | fuel + 1, .palt, cs, g =>
    match pRe fuel .psq cs g with
    | none => none
    | some (r, rest, g') =>
      match rest with
      | '|' :: rest' =>
        match pRe fuel .palt rest' g' with
        | some (r2, rest'', g'') => some (.alt r r2, rest'', g'')
        | none => none
      | _ => some (r, rest, g')
  | fuel + 1, .psq, cs, g =>
    match cs with
    | [] => some (.eps, [], g)
    | ')' :: _ => some (.eps, cs, g)
    | '|' :: _ => some (.eps, cs, g)
    | _ =>
      match pRe fuel .patomq cs g with
      | none => none
      | some (r, rest, g') =>
        match pRe fuel .psq rest g' with
        | some (r2, rest', g'') => some (.seq r r2, rest', g'')
        | none => none
  | fuel + 1, .patomq, cs, g =>
    match pRe fuel .patom cs g with
    | none => none
    | some (r, rest, g') =>
      match rest with
      | '*' :: '?' :: rest' => some (.star true r, rest', g')
      | '*' :: rest' => some (.star false r, rest', g')
      | '+' :: '?' :: rest' => some (.seq r (.star true r), rest', g')
      | '+' :: rest' => some (.seq r (.star false r), rest', g')
      | '?' :: '?' :: rest' => some (.opt true r, rest', g')
      | '?' :: rest' => some (.opt false r, rest', g')
      | '{' :: rest' =>
        match pBraceQ rest' with
        | some ((m, bound), rest'') =>
          let lz := rest''.head? = some '?'
          let rest3 := if lz then rest''.drop 1 else rest''
          match bound with
          | none => some (repExact r m, rest3, g')
          | some none => some (.seq (repExact r m) (.star lz r), rest3, g')
          | some (some n) => some (.seq (repExact r m) (repUpTo lz r (n - m)), rest3, g')
        | none => some (r, rest, g')  -- `{` was not a quantifier; re-parsed as a literal next
      | _ => some (r, rest, g')
  | fuel + 1, .patom, cs, g =>
    match cs with
    | [] => none
    | '(' :: '?' :: ':' :: rest =>
      match pRe fuel .palt rest g with
      | some (r, ')' :: rest', g') => some (r, rest', g')
      | _ => none
    | '(' :: rest =>
      match pRe fuel .palt rest (g + 1) with
      | some (r, ')' :: rest', g') => some (.grp g r, rest', g')
      | _ => none
    | '[' :: '^' :: rest =>
      match pClsItems fuel rest with
      | some (its, rest') => some (.cls true its, rest', g)
      | none => none
    | '[' :: rest =>
      match pClsItems fuel rest with
      | some (its, rest') => some (.cls false its, rest', g)
      | none => none
    | '\\' :: e :: rest => some (pEsc e, rest, g)
    | '.' :: rest => some (.dot, rest, g)
    | '^' :: rest => some (.bol, rest, g)
    | '$' :: rest => some (.eol, rest, g)
    | '*' :: _ => none
    | '+' :: _ => none
    | '?' :: _ => none
    | c :: rest => some (.lit c, rest, g)


/-- A compiled regex: flags plus the parsed pattern.  An unparsable source
(which `new RegExp` would reject by throwing) compiles to `nix`, which never
matches; every pattern occurring in the sources parses. -/
structure CRe where
  fl : Flags
  re : RE
deriving Repr, DecidableEq

def parseFlags (flags : String) : Flags :=
  { g := flags.data.contains 'g'
    ic := flags.data.contains 'i'
    ml := flags.data.contains 'm' }

/-- `new RegExp(src, flags)`. -/
def reC (src flags : String) : CRe :=
  { fl := parseFlags flags
    re :=
      match pRe (8 * src.data.length + 16) .palt src.data 0 with
      | some (r, [], _) => r
      | _ => .nix }

/-- `re.exec` loop results over a string. -/
def rExecAll (r : CRe) (s : String) : List ReM := execAll r.fl r.re s.data

/-- `s.match(re)` without the `g` flag: first match (with groups). -/
def rFind (r : CRe) (s : String) : Option ReM := findFirst r.fl r.re s.data

/-- `s.match(re)` with the `g` flag: all matched substrings, `none` when
there is no match. -/
def rMatchG (r : CRe) (s : String) : Option (List String) :=
  match execAll r.fl r.re s.data with
  | [] => none
  | ms => some (ms.map (fullOf s.data))

/-- `re.test(s)`. -/
def rTest (r : CRe) (s : String) : Bool := (rFind r s).isSome

/-- Group `i` of a match over haystack `s`. -/
def mGrp (s : String) (m : ReM) (i : Nat) : Option String := grpOf s.data m i

/-- `m[0]` for a match. -/
def mFull (s : String) (m : ReM) : String := fullOf s.data m

end JsRe

/-! ## JSON values and `JSON.parse` -/

namespace Js

/-- Opening and closing brace characters. -/
def lbr : Char := Char.ofNat 123
def rbr : Char := Char.ofNat 125

/-- A parsed JSON value.  Numbers keep their source lexeme (none of the
verified properties depends on numeric string formatting). -/
inductive JsonVal where
  | null
  | bool (b : Bool)
  | num (lexeme : String)
  | str (s : String)
  | arr (xs : List JsonVal)
  | obj (kvs : List (String × JsonVal))

namespace JsonVal

/-- Property lookup `v[k]`; `none` models `undefined`. -/
def jget : JsonVal → String → Option JsonVal
  | .obj kvs, k => (kvs.find? (fun kv => kv.1 = k)).map Prod.snd
  | _, _ => none

/-- `Object.entries` for the values this pipeline touches (`none` for
`null`, whose enumeration throws a `TypeError`). -/
def entries : JsonVal → Option (List (String × JsonVal))
  | .null => none
  | .obj kvs => some kvs
  | .arr xs => some (xs.enum.map (fun p => (toString p.1, p.2)))
  | .str s => some (s.data.enum.map (fun p => (toString p.1, JsonVal.str (String.mk [p.2]))))
  | _ => some []

/-- `Object.values` (via `entries`). -/
def valuesJ (v : JsonVal) : Option (List JsonVal) :=
  (entries v).map (List.map Prod.snd)

/-- JavaScript truthiness of a JSON value. -/
def truthy : JsonVal → Bool
  | .null => false
  | .bool b => b
  | .num lex => !(lex = "0" || lex = "-0" || lex = "0.0" || lex = "-0.0")
  | .str s => s ≠ ""
  | .arr _ => true
  | .obj _ => true

/-- String coercion in template literals; exact for the string values the
pipeline interpolates (numbers keep their lexeme, which agrees with
JavaScript for canonical decimal literals). -/
def jstr : JsonVal → String
  | .null => "null"
  | .bool b => if b then "true" else "false"
  | .num lex => lex
  | .str s => s
  | .arr _ => ""
  | .obj _ => "[object Object]"

def isStr : JsonVal → Bool
  | .str _ => true
  | _ => false

def asStr : JsonVal → Option String
  | .str s => some s
  | _ => none

/-- `typeof v === 'object'` (true for objects, arrays and `null`). -/
def typeofObject : JsonVal → Bool
  | .obj _ => true
  | .arr _ => true
  | .null => true
  | _ => false

end JsonVal

/-- JSON white space. -/
def jsonWs (c : Char) : Bool := c = ' ' || c = '\t' || c = '\n' || c = '\r'

def skipWs (cs : List Char) : List Char := cs.dropWhile jsonWs

def hexVal (c : Char) : Option Nat :=
  if '0' ≤ c && c ≤ '9' then some (c.toNat - 48)
  else if 'a' ≤ c && c ≤ 'f' then some (c.toNat - 87)
  else if 'A' ≤ c && c ≤ 'F' then some (c.toNat - 55)
  else none

/-- Parse a JSON string body after the opening quote. -/
def pJStr : Nat → List Char → Option (List Char × List Char)
  | 0, _ => none
  | _, [] => none
  | fuel + 1, c :: rest =>
    if c = '"' then some ([], rest)
    else if c = '\\' then
      match rest with
      | [] => none
      | e :: rest' =>
        let dec : Option (Char × List Char) :=
          if e = '"' then some ('"', rest')
          else if e = '\\' then some ('\\', rest')
          else if e = '/' then some ('/', rest')
          else if e = 'n' then some ('\n', rest')
          else if e = 't' then some ('\t', rest')
          else if e = 'r' then some ('\r', rest')
          else if e = 'b' then some (Char.ofNat 8, rest')
          else if e = 'f' then some (Char.ofNat 12, rest')
          else if e = 'u' then
            match rest' with
            | h1 :: h2 :: h3 :: h4 :: rest'' =>
              match hexVal h1, hexVal h2, hexVal h3, hexVal h4 with
              | some a, some b, some c', some d =>
                some (Char.ofNat (((a * 16 + b) * 16 + c') * 16 + d), rest'')
              | _, _, _, _ => none
            | _ => none
          else none
        match dec with
        | some (ch, rest'') =>
          match pJStr fuel rest'' with
          | some (s, rem) => some (ch :: s, rem)
          | none => none
        | none => none
    else
      match pJStr fuel rest with
      | some (s, rem) => some (c :: s, rem)
      | none => none

/-- Parse a JSON number lexeme. -/
def pJNum (cs : List Char) : Option (List Char × List Char) :=
  let (sign, cs1) := if cs.head? = some '-' then ([ '-' ], cs.drop 1) else ([], cs)
  match cs1 with
  | [] => none
  | d :: _ =>
    if !JsRe.isDigitCh d then none
    else
      let intp := if d = '0' then [ '0' ] else cs1.takeWhile JsRe.isDigitCh
      let cs2 := cs1.drop intp.length
      let (frac, cs3) :=
        match cs2 with
        | '.' :: r =>
          let ds := r.takeWhile JsRe.isDigitCh
          if ds.isEmpty then ([], cs2) else ( '.' :: ds, r.drop ds.length)
        | _ => ([], cs2)
      if frac.isEmpty && cs2.head? = some '.' then none
      else
        let (expp, cs4) :=
          match cs3 with
          | e :: r =>
            if e = 'e' || e = 'E' then
              let (sgn, r1) :=
                match r with
                | s :: r' => if s = '+' || s = '-' then ([s], r') else ([], r)
                | [] => ([], r)
              let ds := r1.takeWhile JsRe.isDigitCh
              if ds.isEmpty then ([], cs3) else (e :: (sgn ++ ds), r1.drop ds.length)
            else ([], cs3)
          | [] => ([], cs3)
        if !expp.isEmpty || ((cs3.head? ≠ some 'e') && (cs3.head? ≠ some 'E')) then
          some (sign ++ intp ++ frac ++ expp, cs4)
        else none

/-- Insert preserving first position on duplicate keys (`JSON.parse`
semantics: the later value wins, the earlier position is kept). -/
def objInsert (kvs : List (String × JsonVal)) (k : String) (v : JsonVal) :
    List (String × JsonVal) :=
  if kvs.any (fun kv => kv.1 = k) then
    kvs.map (fun kv => if kv.1 = k then (k, v) else kv)
  else kvs ++ [(k, v)]

/-- Parser positions for JSON values: a value, an object body or member
list (with the members parsed so far), an array body (with the elements
parsed so far). -/
inductive JMode where
  | v
  | objBody (acc : List (String × JsonVal))
  | member (acc : List (String × JsonVal))
  | arrBody (acc : List JsonVal)

/-- Recursive-descent JSON parsing in one fuel-structural function (so
that it reduces); `jsonParse` supplies ample fuel. -/
def pJ : Nat → JMode → List Char → Option (JsonVal × List Char)
  | 0, _, _ => none
  | fuel + 1, .v, cs =>
    match skipWs cs with
    | [] => none
    | c :: rest =>
      if c = '"' then
        match pJStr (rest.length + 1) rest with
        | some (s, rem) => some (.str ⟨s⟩, rem)
        | none => none
      else if c = lbr then pJ fuel (.objBody []) rest
      else if c = '[' then pJ fuel (.arrBody []) rest
      else if c = 'n' then
        if JsStr.isPre [ 'u', 'l', 'l' ] rest then some (.null, rest.drop 3) else none
      else if c = 't' then
        if JsStr.isPre [ 'r', 'u', 'e' ] rest then some (.bool true, rest.drop 3) else none
      else if c = 'f' then
        if JsStr.isPre [ 'a', 'l', 's', 'e' ] rest then some (.bool false, rest.drop 4)
        else none
      else
        match pJNum (c :: rest) with
        | some (lex, rem) => some (.num ⟨lex⟩, rem)
        | none => none
  | fuel + 1, .objBody acc, cs =>
    match skipWs cs with
    | [] => none
    | c :: rest =>
      if c = rbr then
        if acc.isEmpty then some (.obj [], rest) else none
      else if c = ',' && !acc.isEmpty then pJ fuel (.member acc) rest
      else if acc.isEmpty then pJ fuel (.member acc) (c :: rest)
      else none
  | fuel + 1, .member acc, cs =>
    match skipWs cs with
    | '"' :: rest =>
      match pJStr (rest.length + 1) rest with
      | some (k, rem) =>
        match skipWs rem with
        | ':' :: rem' =>
          match pJ fuel .v rem' with
          | some (v, rem'') =>
            let acc' := objInsert acc ⟨k⟩ v
            match skipWs rem'' with
            | [] => none
            | c2 :: rem3 =>
              if c2 = rbr then some (.obj acc', rem3)
              else if c2 = ',' then pJ fuel (.member acc') rem3
              else none
          | none => none
        | _ => none
      | none => none
    | _ => none
  | fuel + 1, .arrBody acc, cs =>
    match skipWs cs with
    | [] => none
    | c :: rest =>
      if c = ']' && acc.isEmpty then some (.arr [], rest)
      else
        match pJ fuel .v (c :: rest) with
        | some (v, rem) =>
          match skipWs rem with
          | ']' :: rem' => some (.arr (acc ++ [v]), rem')
          | ',' :: rem' => pJ fuel (.arrBody (acc ++ [v])) rem'
          | _ => none
        | none => none

/-- `JSON.parse`; `none` models a thrown `SyntaxError`. -/
def jsonParse (s : String) : Option JsonVal :=
  match pJ (s.data.length + 2) .v s.data with
  | some (v, rem) => if (skipWs rem).isEmpty then some v else none
  | none => none

end Js

/-! ## The multi-language API signature extractor (tool `extract-all-apis`)

Embeds the `execute` body of `extract-all-apis`.  The unused `language`
input does not influence the result and is omitted.  Pattern constants are
compiled from the regex source strings of the TypeScript code (literal `{`
and `}` appear as `\x7b`/`\x7d`). -/

/-- One extracted API entry (`{signature, description, category?}`). -/
structure Api where
  signature : String
  description : String
  category : Option String
deriving Repr, DecidableEq

namespace Extract

open JsRe JsStr

/- markdown / rst patterns -/

def mdCodeBlockRe : CRe := reC "```[\\w]*\n([\\s\\S]*?)```" "g"

def mdFunctionPats : List CRe :=
  [ reC "([a-zA-Z_][\\w.]*)\\s*\\([^)]*\\)" "g"
  , reC "([a-zA-Z_][\\w]*)::\\w+" "g"
  , reC "([a-zA-Z_][\\w]*)\\.\\w+" "g" ]

def mdInlinePats : List CRe :=
  [ reC "`([a-zA-Z_][\\w._]*\\([^`]*\\))`" "g"
  , reC "`([a-zA-Z_][\\w.]*)`\\s*[-–—:]\\s*([^.\n]\x7b5,50\x7d)" "g"
  , reC "\\*\\*`([a-zA-Z_][\\w._]*\\([^`]*\\))`\\*\\*" "g"
  , reC "`_\\.([a-zA-Z_][\\w]*)\\([^`]*\\)`" "g" ]

def mdListPats : List CRe :=
  [ reC "^[\\*\\-]\\s*`([^`]+)`\\s*[-–—:]\\s*(.+)$" "gm"
  , reC "^\\d+\\.\\s*`([^`]+)`\\s*[-–—:]\\s*(.+)$" "gm"
  , reC "^[\\*\\-]\\s*\\*\\*([^*]+)\\*\\*\\s*[-–—:]\\s*(.+)$" "gm" ]

def mdTableRowRe : CRe := reC "\\|\\s*`?([^|`]+)`?\\s*\\|([^|]*)\\|" "g"

def mdHeaderRe : CRe := reC "^#\x7b2,4\x7d\\s+`?([a-zA-Z_][\\w.()]*)`?$" "gm"

def mdApis (content : String) : List Api :=
  let codeBlockApis :=
    (rExecAll mdCodeBlockRe content).flatMap (fun m =>
      let codeBlock := (mGrp content m 1).getD ""
      mdFunctionPats.flatMap (fun p =>
        (rExecAll p codeBlock).filterMap (fun fm =>
          let sig := jsTrim (mFull codeBlock fm)
          if sig ≠ "" && !(jsStartsWith sig "//") && !(jsStartsWith sig "#") then
            some ⟨sig, "Extracted from code block", some "code-block"⟩
          else none)))
  let inlineApis :=
    mdInlinePats.flatMap (fun p =>
      (rExecAll p content).filterMap (fun m =>
        match mGrp content m 1 with
        | none => none
        | some signature =>
          let description := jsOrStr (mGrp content m 2) "API method"
          if (signature ≠ "" && !(jsIncludes signature " ")) || jsIncludes signature "(" then
            some ⟨signature, jsTrim description, some "inline"⟩
          else none))
  let listApis :=
    mdListPats.flatMap (fun p =>
      (rExecAll p content).map (fun m =>
        let signature := jsTrim ((mGrp content m 1).getD "")
        let description := jsTrim ((mGrp content m 2).getD "")
        ⟨signature, jsOrStr (some description) "API method", some "list"⟩))
  let tableApis :=
    (rExecAll mdTableRowRe content).filterMap (fun m =>
      let signature := jsTrim ((mGrp content m 1).getD "")
      let description := jsTrim ((mGrp content m 2).getD "")
      if signature ≠ "" &&
          (jsIncludes signature "(" || jsIncludes signature "." ||
            jsIncludes signature "::") then
        some ⟨signature, jsOrStr (some description) "API method", some "table"⟩
      else none)
  let headerApis :=
    (rExecAll mdHeaderRe content).filterMap (fun m =>
      let signature := jsTrim ((mGrp content m 1).getD "")
      if signature ≠ "" && (jsIncludes signature "(" || jsIncludes signature ".") then
        some ⟨signature, "API section", some "header"⟩
      else none)
  codeBlockApis ++ inlineApis ++ listApis ++ tableApis ++ headerApis

/- TypeScript / type-definition patterns -/

def tsExportRe : CRe :=
  reC "export\\s+(?:declare\\s+)?(?:function|const|let|var|class|interface|type|enum)\\s+([a-zA-Z_$][a-zA-Z0-9_$]*)" "g"

def tsMethodRe : CRe :=
  reC "(?:export\\s+)?(?:function\\s+)?([a-zA-Z_$][a-zA-Z0-9_$]*)\\s*(<[^>]*>)?\\s*\\(([^)]*)\\)\\s*:\\s*([^;\x7b]+)" "g"

def tsPropertyRe : CRe :=
  reC "([a-zA-Z_$][a-zA-Z0-9_$]*)\\s*:\\s*\\(([^)]*)\\)\\s*=>\\s*([^;,\x7d]+)" "g"

def tsApis (content : String) : List Api :=
  let methodApis :=
    (rExecAll tsMethodRe content).map (fun m =>
      let name := (mGrp content m 1).getD ""
      let generics := (mGrp content m 2).getD ""
      let params := (mGrp content m 3).getD ""
      let returnType := (mGrp content m 4).getD ""
      (⟨name ++ generics ++ "(" ++ params ++ ")", "Returns " ++ jsTrim returnType,
        some "function"⟩ : Api))
  let propApis :=
    (rExecAll tsPropertyRe content).map (fun m =>
      let name := (mGrp content m 1).getD ""
      let params := (mGrp content m 2).getD ""
      let returnType := (mGrp content m 3).getD ""
      (⟨name ++ "(" ++ params ++ ")", "Returns " ++ jsTrim returnType, some "method"⟩ : Api))
  (rExecAll tsExportRe content).foldl
    (fun acc m =>
      let name := (mGrp content m 1).getD ""
      if acc.any (fun api => jsIncludes api.signature name) then acc
      else acc ++ [⟨name, "Exported entity", some "export"⟩])
    (methodApis ++ propApis)

/- JavaScript patterns -/

def jsFunctionRe : CRe :=
  reC "(?:export\\s+)?(?:async\\s+)?function\\s+([a-zA-Z_$][a-zA-Z0-9_$]*)\\s*\\(([^)]*)\\)" "g"

def jsArrowRe : CRe :=
  reC "(?:export\\s+)?(?:const|let|var)\\s+([a-zA-Z_$][a-zA-Z0-9_$]*)\\s*=\\s*(?:async\\s+)?\\(([^)]*)\\)\\s*=>" "g"

def jsMethodRe : CRe :=
  reC "([a-zA-Z_$][a-zA-Z0-9_$]*)\\s*:\\s*(?:async\\s+)?function\\s*\\(([^)]*)\\)" "g"

def jsClassMethodRe : CRe :=
  reC "(?:static\\s+)?(?:async\\s+)?([a-zA-Z_$][a-zA-Z0-9_$]*)\\s*\\(([^)]*)\\)\\s*\x7b" "g"

def sig2 (content : String) (m : ReM) : String :=
  ((mGrp content m 1).getD "") ++ "(" ++ ((mGrp content m 2).getD "") ++ ")"

def jsApis (content : String) : List Api :=
  ((rExecAll jsFunctionRe content).map (fun m =>
      (⟨sig2 content m, "Function", some "function"⟩ : Api))) ++
  ((rExecAll jsArrowRe content).map (fun m =>
      (⟨sig2 content m, "Arrow function", some "function"⟩ : Api))) ++
  ((rExecAll jsMethodRe content).map (fun m =>
      (⟨sig2 content m, "Method", some "method"⟩ : Api))) ++
  ((rExecAll jsClassMethodRe content).filterMap (fun m =>
      let name := (mGrp content m 1).getD ""
      if ["constructor", "if", "for", "while", "switch"].contains name then none
      else some (⟨sig2 content m, "Class method", some "method"⟩ : Api)))

/- Python patterns -/

def pyClassRe : CRe := reC "^class\\s+(\\w+)(?:\\([^)]*\\))?:" "gm"

def pyFunctionRe : CRe :=
  reC "^(?:async\\s+)?def\\s+(\\w+)\\s*\\(([^)]*)\\)(?:\\s*->\\s*([^:]+))?:" "gm"

def pyDecoratorRe : CRe := reC "^@(\\w+)(?:\\.\\w+)*(?:\\([^)]*\\))?" "gm"

def pyApis (content : String) : List Api :=
  ((rExecAll pyClassRe content).map (fun m =>
      (⟨"class " ++ ((mGrp content m 1).getD ""), "Python class", some "class"⟩ : Api))) ++
  ((rExecAll pyFunctionRe content).map (fun m =>
      let name := (mGrp content m 1).getD ""
      let params := (mGrp content m 2).getD ""
      let returnType := (mGrp content m 3).getD ""
      (⟨"def " ++ name ++ "(" ++ params ++ ")" ++
          (if returnType ≠ "" then " -> " ++ returnType else ""),
        "Python function", some "function"⟩ : Api))) ++
  ((rExecAll pyDecoratorRe content).map (fun m =>
      (⟨"@" ++ ((mGrp content m 1).getD ""), "Python decorator", some "decorator"⟩ : Api)))

/- Java patterns (the annotation pattern in the source is never executed) -/

def javaClassRe : CRe :=
  reC "(?:public|private|protected)?\\s*(?:static\\s+)?(?:final\\s+)?class\\s+(\\w+)" "g"

def javaInterfaceRe : CRe := reC "(?:public|private|protected)?\\s*interface\\s+(\\w+)" "g"

def javaMethodRe : CRe :=
  reC "(?:public|private|protected)?\\s*(?:static\\s+)?(?:final\\s+)?(?:[\\w<>\\[\\]]+)\\s+(\\w+)\\s*\\(([^)]*)\\)" "g"

def javaApis (content : String) : List Api :=
  ((rExecAll javaClassRe content).map (fun m =>
      (⟨"class " ++ ((mGrp content m 1).getD ""), "Java class", some "class"⟩ : Api))) ++
  ((rExecAll javaInterfaceRe content).map (fun m =>
      (⟨"interface " ++ ((mGrp content m 1).getD ""), "Java interface",
        some "interface"⟩ : Api))) ++
  ((rExecAll javaMethodRe content).filterMap (fun m =>
      let name := (mGrp content m 1).getD ""
      if ["if", "for", "while", "switch", "catch"].contains name then none
      else some (⟨sig2 content m, "Java method", some "method"⟩ : Api)))

/- Rust patterns (the impl pattern in the source is never executed) -/

def rustStructRe : CRe := reC "pub\\s+struct\\s+(\\w+)" "g"

def rustEnumRe : CRe := reC "pub\\s+enum\\s+(\\w+)" "g"

def rustFnRe : CRe :=
  reC "pub\\s+(?:async\\s+)?fn\\s+(\\w+)\\s*(?:<[^>]+>)?\\s*\\(([^)]*)\\)(?:\\s*->\\s*([^\x7b]+))?" "g"

def rustTraitRe : CRe := reC "pub\\s+trait\\s+(\\w+)" "g"

def rustApis (content : String) : List Api :=
  ((rExecAll rustStructRe content).map (fun m =>
      (⟨"struct " ++ ((mGrp content m 1).getD ""), "Rust struct", some "struct"⟩ : Api))) ++
  ((rExecAll rustEnumRe content).map (fun m =>
      (⟨"enum " ++ ((mGrp content m 1).getD ""), "Rust enum", some "enum"⟩ : Api))) ++
  ((rExecAll rustFnRe content).map (fun m =>
      let name := (mGrp content m 1).getD ""
      let params := (mGrp content m 2).getD ""
      let returnType := (mGrp content m 3).getD ""
      (⟨"fn " ++ name ++ "(" ++ params ++ ")" ++
          (if returnType ≠ "" then " -> " ++ jsTrim returnType else ""),
        "Rust function", some "function"⟩ : Api))) ++
  ((rExecAll rustTraitRe content).map (fun m =>
      (⟨"trait " ++ ((mGrp content m 1).getD ""), "Rust trait", some "trait"⟩ : Api)))

/- Go patterns (the interface-method pattern in the source is never executed) -/

def goFuncRe : CRe :=
  reC "func\\s+(?:\\([^)]*\\)\\s+)?(\\w+)\\s*\\(([^)]*)\\)(?:\\s*(?:\\([^)]*\\)|[^\x7b]+))?" "g"

def goTypeRe : CRe := reC "type\\s+(\\w+)\\s+(?:struct|interface|\\w+)" "g"

def goApis (content : String) : List Api :=
  ((rExecAll goFuncRe content).map (fun m =>
      let name := (mGrp content m 1).getD ""
      let params := (mGrp content m 2).getD ""
      (⟨"func " ++ name ++ "(" ++ params ++ ")", "Go function", some "function"⟩ : Api))) ++
  ((rExecAll goTypeRe content).map (fun m =>
      (⟨"type " ++ ((mGrp content m 1).getD ""), "Go type", some "type"⟩ : Api)))

/- Ruby patterns (the attr pattern in the source is never executed) -/

def rbClassRe : CRe := reC "class\\s+(\\w+)(?:\\s*<\\s*\\w+)?" "g"

def rbModuleRe : CRe := reC "module\\s+(\\w+)" "g"

def rbMethodRe : CRe := reC "def\\s+(?:self\\.)?(\\w+)(?:\\(([^)]*)\\))?" "g"

def rbApis (content : String) : List Api :=
  ((rExecAll rbClassRe content).map (fun m =>
      (⟨"class " ++ ((mGrp content m 1).getD ""), "Ruby class", some "class"⟩ : Api))) ++
  ((rExecAll rbModuleRe content).map (fun m =>
      (⟨"module " ++ ((mGrp content m 1).getD ""), "Ruby module", some "module"⟩ : Api))) ++
  ((rExecAll rbMethodRe content).map (fun m =>
      let name := (mGrp content m 1).getD ""
      let params := (mGrp content m 2).getD ""
      (⟨"def " ++ name ++ (if params ≠ "" then "(" ++ params ++ ")" else ""),
        "Ruby method", some "method"⟩ : Api)))

/- C++ patterns (the function and namespace patterns in the source are
never executed) -/

def cppClassRe : CRe := reC "class\\s+(\\w+)" "g"

def cppStructRe : CRe := reC "struct\\s+(\\w+)" "g"

def cppTemplateRe : CRe := reC "template\\s*<[^>]+>\\s*(?:class|struct)\\s+(\\w+)" "g"

def cppApis (content : String) : List Api :=
  ((rExecAll cppClassRe content).map (fun m =>
      (⟨"class " ++ ((mGrp content m 1).getD ""), "C++ class", some "class"⟩ : Api))) ++
  ((rExecAll cppStructRe content).map (fun m =>
      (⟨"struct " ++ ((mGrp content m 1).getD ""), "C++ struct", some "struct"⟩ : Api))) ++
  ((rExecAll cppTemplateRe content).map (fun m =>
      (⟨"template " ++ ((mGrp content m 1).getD ""), "C++ template", some "template"⟩ : Api)))

/- C# patterns (the property pattern in the source is never executed) -/

def csClassRe : CRe :=
  reC "(?:public|private|protected|internal)?\\s*(?:static\\s+)?(?:partial\\s+)?class\\s+(\\w+)" "g"

def csInterfaceRe : CRe := reC "(?:public|private|protected|internal)?\\s*interface\\s+(\\w+)" "g"

def csMethodRe : CRe :=
  reC "(?:public|private|protected|internal)?\\s*(?:static\\s+)?(?:async\\s+)?(?:[\\w<>\\[\\]?]+)\\s+(\\w+)\\s*\\(([^)]*)\\)" "g"

def csApis (content : String) : List Api :=
  ((rExecAll csClassRe content).map (fun m =>
      (⟨"class " ++ ((mGrp content m 1).getD ""), "C# class", some "class"⟩ : Api))) ++
  ((rExecAll csInterfaceRe content).map (fun m =>
      (⟨"interface " ++ ((mGrp content m 1).getD ""), "C# interface",
        some "interface"⟩ : Api))) ++
  ((rExecAll csMethodRe content).filterMap (fun m =>
      let name := (mGrp content m 1).getD ""
      if ["if", "for", "while", "switch", "catch"].contains name then none
      else some (⟨sig2 content m, "C# method", some "method"⟩ : Api)))

/- PHP patterns (the trait and interface patterns in the source are never
executed) -/

def phpClassRe : CRe :=
  reC "class\\s+(\\w+)(?:\\s+extends\\s+\\w+)?(?:\\s+implements\\s+[\\w,\\s]+)?" "g"

def phpFunctionRe : CRe :=
  reC "(?:public|private|protected)?\\s*(?:static\\s+)?function\\s+(\\w+)\\s*\\(([^)]*)\\)" "g"

def phpApis (content : String) : List Api :=
  ((rExecAll phpClassRe content).map (fun m =>
      (⟨"class " ++ ((mGrp content m 1).getD ""), "PHP class", some "class"⟩ : Api))) ++
  ((rExecAll phpFunctionRe content).map (fun m =>
      let name := (mGrp content m 1).getD ""
      let params := (mGrp content m 2).getD ""
      (⟨"function " ++ name ++ "(" ++ params ++ ")", "PHP function",
        some "function"⟩ : Api)))

/- package.json branch -/

open Js Js.JsonVal in
/-- The `addExport(key, value)` recursion over the members of the export
map, flattened into one fuel-structural function (`jsonApis` supplies
ample fuel for the finite JSON tree).  A string value pushes an entry, an
object or array value recurses into its entries, and enumerating `null`
throws a `TypeError`; the boolean result records that thrown error, which
aborts the branch but keeps the entries pushed so far. -/
def addExportList : Nat → List (String × Js.JsonVal) → List Api → List Api × Bool
  | 0, _, acc => (acc, true)
  | _ + 1, [], acc => (acc, false)
  | fuel + 1, (key, v) :: rest, acc =>
    match v with
    | .str s =>
      addExportList fuel rest
        (acc ++ [⟨if key = "." then "default export" else key,
          "Exported from " ++ s, some "export"⟩])
    | _ =>
      if v.typeofObject then
        match v.entries with
        | none => (acc, true)
        | some kvs =>
          match addExportList fuel kvs acc with
          | (acc', true) => (acc', true)
          | (acc', false) => addExportList fuel rest acc'
      else addExportList fuel rest acc

open Js Js.JsonVal in
/-- JavaScript `a || b` over possibly-undefined JSON values. -/
def jsOrV (a b : Option Js.JsonVal) : Option Js.JsonVal :=
  match a with
  | some v => if v.truthy then some v else b
  | none => b

open Js Js.JsonVal in
def jsonApis (content : String) : List Api :=
  match jsonParse content with
  | none => []
  | some pkg =>
    let fuel := content.length + 2
    let exportsV := pkg.jget "exports"
    let (acc1, threw) :=
      if (exportsV.map truthy).getD false then
        match exportsV with
        | some ex =>
          if ex.typeofObject then
            match ex.entries with
            | some kvs => addExportList (fuel + 1) kvs []
            | none => ([], true)
          else ([], false)
        | none => ([], false)
      else ([], false)
    if threw then acc1
    else
      let mainV := pkg.jget "main"
      let acc2 :=
        if (mainV.map truthy).getD false then
          acc1 ++ [⟨"main", "Main entry: " ++ jstr (mainV.getD .null), some "export"⟩]
        else acc1
      let typesV := jsOrV (pkg.jget "types") (pkg.jget "typings")
      if (typesV.map truthy).getD false then
        acc2 ++ [⟨"types", "TypeScript definitions: " ++ jstr (typesV.getD .null),
          some "export"⟩]
      else acc2

end Extract

/-- The branch dispatch of `extract-all-apis`: the `apis` array before
deduplication. -/
def extractApisRaw (content contentType : String) : List Api :=
  if contentType = "md" || contentType = "rst" then Extract.mdApis content
  else if contentType = "d.ts" || contentType = "ts" then Extract.tsApis content
  else if contentType = "js" then Extract.jsApis content
  else if contentType = "py" || contentType = "python" then Extract.pyApis content
  else if contentType = "java" then Extract.javaApis content
  else if contentType = "rs" || contentType = "rust" then Extract.rustApis content
  else if contentType = "go" then Extract.goApis content
  else if contentType = "rb" || contentType = "ruby" then Extract.rbApis content
  else if contentType = "cpp" || contentType = "cc" || contentType = "h" ||
      contentType = "hpp" then Extract.cppApis content
  else if contentType = "cs" || contentType = "csharp" then Extract.csApis content
  else if contentType = "php" then Extract.phpApis content
  else if contentType = "json" && JsStr.jsIncludes content "package.json" then
    Extract.jsonApis content
  else []

/-- Deduplication by exact signature, first occurrence wins (the `seen`
set accumulated in list form). -/
def dedupBySignature : List Api → List String → List Api
  | [], _ => []
  | a :: rest, seen =>
    if seen.contains a.signature then dedupBySignature rest seen
    else a :: dedupBySignature rest (a.signature :: seen)

structure ExtractResult where
  apis : List Api
  success : Bool
deriving Repr, DecidableEq

/-- The `execute` body of `extract-all-apis`: extract, dedup, succeed (no
reachable exception: `JSON.parse` failure is caught inside the manifest
branch). -/
def extractAllApis (content contentType : String) : ExtractResult :=
  { apis := dedupBySignature (extractApisRaw content contentType) []
    success := true }

/-! ## The markdown structural parser (tool `parse-markdown`) -/

structure MdSection where
  heading : String
  level : Nat
  content : String
deriving Repr, DecidableEq

structure ParseMdResult where
  sections : List MdSection
  codeBlocks : List String
  links : List String
deriving Repr, DecidableEq

namespace ParseMd

open JsRe JsStr

def pmLinkRe : CRe := reC "\\[([^\\]]+)\\]\\(([^)]+)\\)" "g"

def pmLinkInnerRe : CRe := reC "\\(([^)]+)\\)" ""

def pmHeadingRe : CRe := reC "^(#\x7b1,6\x7d)\\s+(.+)$" ""

/-- The loop state of the `parse-markdown` line scanner. -/
structure PmState where
  sections : List MdSection
  codeBlocks : List String
  links : List String
  currentSection : Option (String × Nat)
  currentContent : List String
  inCodeBlock : Bool
  currentCodeBlock : List String
deriving Repr, DecidableEq

def pmInit : PmState := ⟨[], [], [], none, [], false, []⟩

/-- Commit the open section (body joined and trimmed), if any. -/
def pmCommit (st : PmState) : List MdSection :=
  match st.currentSection with
  | none => st.sections
  | some (heading, level) =>
    st.sections ++ [⟨heading, level, jsTrim (jsJoin st.currentContent "\n")⟩]

/-- One iteration of `for (const line of lines)`. -/
def pmStep (st : PmState) (line : String) : PmState :=
  if jsStartsWith (jsTrim line) "```" then
    if st.inCodeBlock then
      { st with
        codeBlocks := st.codeBlocks ++ [jsJoin st.currentCodeBlock "\n"]
        currentCodeBlock := []
        inCodeBlock := false }
    else
      { st with inCodeBlock := true }
  else if st.inCodeBlock then
    { st with currentCodeBlock := st.currentCodeBlock ++ [line] }
  else
    let st :=
      match rMatchG pmLinkRe line with
      | none => st
      | some ms =>
        { st with
          links := st.links ++ ms.map (fun matched =>
            match rFind pmLinkInnerRe matched with
            | some im => (mGrp matched im 1).getD ""
            | none => "") }
    match rFind pmHeadingRe line with
    | some hm =>
      { st with
        sections := pmCommit st
        currentSection := some (jsTrim ((mGrp line hm 2).getD ""),
          ((mGrp line hm 1).getD "").length)
        currentContent := [] }
    | none =>
      if st.currentSection.isSome then
        { st with currentContent := st.currentContent ++ [line] }
      else st

/-- After the loop: flush the open section; the code-block buffer is
discarded. -/
def pmFinish (st : PmState) : ParseMdResult :=
  ⟨pmCommit st, st.codeBlocks, st.links⟩

end ParseMd

/-- The `execute` body of `parse-markdown`. -/
def parseMarkdown (content : String) : ParseMdResult :=
  ParseMd.pmFinish ((JsStr.jsSplit content "\n").foldl ParseMd.pmStep ParseMd.pmInit)

/-! ## The output assembler (tool `generate-output`) -/

namespace GenOut

structure Concept where
  name : String
  description : String
deriving Repr, DecidableEq

structure ApiEntry where
  signature : String
  description : String
deriving Repr, DecidableEq

structure PatternEntry where
  pattern : String
  description : String
deriving Repr, DecidableEq

/-- The input record of `generate-output`. -/
structure GenInput where
  repoName : String
  repoUrl : String
  purpose : String
  concepts : List Concept
  apis : List ApiEntry
  patterns : List PatternEntry
deriving Repr, DecidableEq

end GenOut

open GenOut (GenInput)

/-- The `execute` body of `generate-output`: pure template rendering by
string accumulation, exactly in source order. -/
def generateOutput (i : GenInput) : String :=
  let markdown := "## " ++ i.repoName ++ " - Condensed Context Index\n\n"
  let markdown := markdown ++ "## Overall Purpose\n" ++ i.purpose ++ "\n\n"
  let markdown := markdown ++ "## Core Concepts & Capabilities\n"
  let markdown := i.concepts.foldl
    (fun acc c => acc ++ c.name ++ " - " ++ c.description ++ "\n\n") markdown
  let markdown := markdown ++ "## Key APIs / Components / Configuration\n"
  let markdown := i.apis.foldl
    (fun acc a => acc ++ a.signature ++ " - " ++ a.description ++ "\n\n") markdown
  let markdown := markdown ++ "## Common Patterns & Best Practices / Pitfalls\n"
  let markdown := i.patterns.foldl
    (fun acc p => acc ++ p.pattern ++ " - " ++ p.description ++ "\n\n") markdown
  markdown ++ "This index summarizes the core concepts, APIs, and patterns for " ++
    i.repoName ++ ". Consult the full source documentation (" ++ i.repoUrl ++
    ") for exhaustive details.\n"

/-- Rendering of the same template written as the specification describes
it: a fixed four-section template followed by a closing attribution line
(used to compare `generateOutput` against the specified shape). -/
def generateOutputSpec (i : GenInput) : String :=
  let titleLine := "## " ++ i.repoName ++ " - Condensed Context Index\n\n"
  let sec1 := "## Overall Purpose\n" ++ i.purpose ++ "\n\n"
  let sec2 := "## Core Concepts & Capabilities\n" ++
    String.join (i.concepts.map (fun c => c.name ++ " - " ++ c.description ++ "\n\n"))
  let sec3 := "## Key APIs / Components / Configuration\n" ++
    String.join (i.apis.map (fun a => a.signature ++ " - " ++ a.description ++ "\n\n"))
  let sec4 := "## Common Patterns & Best Practices / Pitfalls\n" ++
    String.join (i.patterns.map (fun p => p.pattern ++ " - " ++ p.description ++ "\n\n"))
  let attribution := "This index summarizes the core concepts, APIs, and patterns for " ++
    i.repoName ++ ". Consult the full source documentation (" ++ i.repoUrl ++
    ") for exhaustive details.\n"
  titleLine ++ sec1 ++ sec2 ++ sec3 ++ sec4 ++ attribution

/-! ## Network oracle -/

/-- A network response: success body, HTTP error (status + body), or a
network exception (the rejection message). -/
inductive Resp where
  | ok (body : String)
  | err (status : Nat) (body : String)
  | exn (msg : String)

/-- The network oracle: request URL to response.  Request headers never
influence the modelled behaviour. -/
def Net := String → Resp

/-! ## The multi-phase file retriever (tool `fetch-all-docs`) -/

/-- One fetched file object; optional fields model properties that are
present only on some push sites. -/
structure FetchedFile where
  path : String
  content : String
  type : String
  estimatedTokens : Option Nat
  truncated : Option Bool
  originalSize : Option Nat
  largeFile : Option Bool
deriving Repr, DecidableEq

inductive SearchType where
  | docs | types | source | all
deriving Repr, DecidableEq

structure FetchResult where
  files : List FetchedFile
  success : Bool
  error : Option String
  totalFound : Option Nat
deriving Repr, DecidableEq

namespace FetchDocs

open JsStr Js Js.JsonVal

/-- `v === 'lit'` for a possibly-undefined JSON value against a string
literal. -/
def isStrEq (v : Option Js.JsonVal) (lit : String) : Bool :=
  match v with
  | some (.str t) => t = lit
  | _ => false

/-- `estimateTokens`: `Math.ceil(text.length / 4)`. -/
def estimateTokens (text : String) : Nat := (text.length + 3) / 4

/-- `SKIP_FILES`. -/
def SKIP_FILES : List String :=
  [ "CHANGELOG.md", "CONTRIBUTING.md", "CODE_OF_CONDUCT.md", "SECURITY.md",
    "LICENSE", "LICENSE.md", "PATENTS", ".github", "HISTORY.md",
    "CHANGES.md", "NEWS.md" ]

/-- `shouldSkipFile`: case-insensitive substring test against the
deny-list. -/
def shouldSkipFile (path : String) : Bool :=
  let upperPath := jsToUpper path
  SKIP_FILES.any (fun skip => jsIncludes upperPath (jsToUpper skip))

def docsCandidatePaths : List String :=
  [ "README.md", "readme.md", "README.rst", "API.md", "api.md",
    "REFERENCE.md", "reference.md", "docs/API.md", "docs/api.md",
    "docs/reference.md", "docs/getting-started.md", "docs/quick-start.md",
    "documentation.md", "DOCUMENTATION.md", "USAGE.md", "GUIDE.md" ]

def typesCandidatePaths : List String :=
  [ "index.d.ts", "types/index.d.ts", "dist/index.d.ts", "lib/index.d.ts",
    "typings/index.d.ts", "lodash.d.ts", "types.d.ts" ]

def sourceCandidatePaths : List String :=
  [ "package.json", "index.js", "index.ts", "src/index.js", "src/index.ts",
    "lib/index.js", "dist/index.js", "lodash.js", "main.js", "main.ts" ]

/-- `path.split('.').pop() || dflt`. -/
def extOf (path dflt : String) : String :=
  jsOrStr ((jsSplit path ".").getLast?) dflt

/-- Strip one trailing `/` (`.replace(/\/$/, '')`). -/
def stripSlash (s : String) : String :=
  if jsEndsWith s "/" then ⟨s.data.dropLast⟩ else s

/-- Stringification of a possibly-undefined JSON value inside a template
literal (`undefined` renders as "undefined"). -/
def jstrU (v : Option JsonVal) : String :=
  match v with
  | none => "undefined"
  | some v => v.jstr

/-- Base64 value of a character. -/
def b64Val (c : Char) : Option Nat :=
  if 'A' ≤ c && c ≤ 'Z' then some (c.toNat - 65)
  else if 'a' ≤ c && c ≤ 'z' then some (c.toNat - 71)
  else if '0' ≤ c && c ≤ '9' then some (c.toNat + 4)
  else if c = '+' then some 62
  else if c = '/' then some 63
  else none

/-- `Buffer.from(s, 'base64').toString()`; invalid characters and padding
are skipped, decoded bytes are mapped to code points (exact for the ASCII
payloads at hand). -/
def b64go : List Char → Nat → Nat → List Char
  | [], _, _ => []
  | c :: rest, acc, n =>
    match b64Val c with
    | none => b64go rest acc n
    | some v =>
      let acc' := acc * 64 + v
      let n' := n + 6
      if n' ≥ 8 then
        Char.ofNat ((acc' / 2 ^ (n' - 8)) % 256) :: b64go rest (acc' % 2 ^ (n' - 8)) (n' - 8)
      else b64go rest acc' n'

def b64decode (s : String) : String := ⟨b64go s.data 0 0⟩

/-- The entry pushed by the ranked candidate-path loop: files over 50000
estimated tokens are truncated to their first 200000 characters, except
`package.json`, which is kept whole and tagged `largeFile`. -/
def mkCandidateEntry (path content : String) : FetchedFile :=
  let fileType := extOf path "unknown"
  let tokens := estimateTokens content
  if tokens > 50000 then
    if path = "package.json" then
      ⟨path, content, fileType, some tokens, none, none, some true⟩
    else
      ⟨path, jsSubstring content 0 200000, fileType, some tokens, some true,
        some content.length, none⟩
  else
    ⟨path, content, fileType, some tokens, none, none, none⟩

/-- The entry pushed by the documentation-directory discovery pass (no
manifest exemption here). -/
def mkDocsEntry (filePath name content : String) : FetchedFile :=
  let fileType := extOf name "unknown"
  let tokens := estimateTokens content
  if tokens > 50000 then
    ⟨filePath, jsSubstring content 0 200000, fileType, some tokens, some true,
      some content.length, none⟩
  else
    ⟨filePath, content, fileType, some tokens, none, none, none⟩

/-- Branch probe: `main` then `master` against the root readme; a network
exception escapes to the outer catch. -/
def probeBranch (net : Net) (baseUrl : String) : Except String String :=
  match net (baseUrl ++ "/main/README.md") with
  | .exn m => .error m
  | .ok _ => .ok "main"
  | .err _ _ =>
    match net (baseUrl ++ "/master/README.md") with
    | .exn m => .error m
    | .ok _ => .ok "master"
    | .err _ _ => .ok "main"

/-- The ranked candidate-path loop (per-path failures are caught and
skipped). -/
def candidateLoop (net : Net) (baseUrl branch : String) (maxFiles : Nat) :
    List String → List FetchedFile → List FetchedFile
  | [], files => files
  | path :: rest, files =>
    if files.length ≥ maxFiles then files
    else if shouldSkipFile path then candidateLoop net baseUrl branch maxFiles rest files
    else
      match net (baseUrl ++ "/" ++ branch ++ "/" ++ path) with
      | .ok content =>
        candidateLoop net baseUrl branch maxFiles rest (files ++ [mkCandidateEntry path content])
      | _ => candidateLoop net baseUrl branch maxFiles rest files

def apiRepoUrl (owner repo : String) : String :=
  "https://api.github.com/repos/" ++ owner ++ "/" ++ repo

def apiContentsUrl (owner repo : String) : String :=
  apiRepoUrl owner repo ++ "/contents"

/-- Inner loop of the documentation-directory pass; the boolean result
records an exception escaping to the enclosing block catch (a listed entry
whose `name` is not a string). -/
def docsDirFileLoop (net : Net) (maxFiles : Nat) (dir : String) :
    List JsonVal → List FetchedFile → List FetchedFile × Bool
  | [], files => (files, false)
  | fv :: rest, files =>
    if files.length ≥ maxFiles then (files, false)
    else if isStrEq (fv.jget "type") "file" then
      match fv.jget "name" with
      | some (.str name) =>
        if jsEndsWith name ".md" || jsEndsWith name ".rst" then
          let filePath := dir ++ "/" ++ name
          if shouldSkipFile filePath then docsDirFileLoop net maxFiles dir rest files
          else
            match fv.jget "download_url" with
            | some (.str u) =>
              match net u with
              | .ok content =>
                docsDirFileLoop net maxFiles dir rest (files ++ [mkDocsEntry filePath name content])
              | _ => docsDirFileLoop net maxFiles dir rest files
            | _ => docsDirFileLoop net maxFiles dir rest files
        else docsDirFileLoop net maxFiles dir rest files
      | _ => (files, true)
    else docsDirFileLoop net maxFiles dir rest files

/-- The documentation-directory loop over `['docs', 'documentation',
'doc', 'api-docs']`; exceptions abort the remaining directories but keep
the files fetched so far. -/
def docsDirsLoop (net : Net) (owner repo : String) (maxFiles : Nat) :
    List String → List FetchedFile → List FetchedFile
  | [], files => files
  | dir :: rest, files =>
    if files.length ≥ maxFiles then files
    else
      match net (apiContentsUrl owner repo ++ "/" ++ dir) with
      | .exn _ => files
      | .err _ _ => docsDirsLoop net owner repo maxFiles rest files
      | .ok body =>
        match jsonParse body with
        | none => files
        | some (.arr items) =>
          match docsDirFileLoop net maxFiles dir items files with
          | (files', true) => files'
          | (files', false) => docsDirsLoop net owner repo maxFiles rest files'
        | some (.str _) => docsDirsLoop net owner repo maxFiles rest files
        | some _ => files

/-- The docs-discovery block: an informational repository-metadata fetch,
then the documentation directories. -/
def docsDiscovery (net : Net) (owner repo : String) (maxFiles : Nat)
    (files : List FetchedFile) : List FetchedFile :=
  match net (apiRepoUrl owner repo) with
  | .exn _ => files
  | .err _ _ => docsDirsLoop net owner repo maxFiles
      [ "docs", "documentation", "doc", "api-docs" ] files
  | .ok body =>
    match jsonParse body with
    | none => files
    | some _ => docsDirsLoop net owner repo maxFiles
        [ "docs", "documentation", "doc", "api-docs" ] files

/-- Inner loop of the type-definition pass: `.d.ts` members are pushed
whole, with no truncation and no deny-list check. -/
def typesFileLoop (net : Net) (maxFiles : Nat) (location : String) :
    List JsonVal → List FetchedFile → List FetchedFile × Bool
  | [], files => (files, false)
  | fv :: rest, files =>
    if files.length ≥ maxFiles then (files, false)
    else if isStrEq (fv.jget "type") "file" then
      match fv.jget "name" with
      | some (.str name) =>
        if jsEndsWith name ".d.ts" then
          let filePath := if location = "" then name else location ++ "/" ++ name
          match fv.jget "download_url" with
          | some (.str u) =>
            match net u with
            | .ok content =>
              typesFileLoop net maxFiles location rest
                (files ++ [⟨filePath, content, "d.ts", none, none, none, none⟩])
            | _ => typesFileLoop net maxFiles location rest files
          | _ => typesFileLoop net maxFiles location rest files
        else typesFileLoop net maxFiles location rest files
      | _ => (files, true)
    else typesFileLoop net maxFiles location rest files

/-- The type-definition directory pass over `['', 'types', 'typings',
'dist', 'lib', '@types']`. -/
def typesLocationsLoop (net : Net) (owner repo : String) (maxFiles : Nat) :
    List String → List FetchedFile → List FetchedFile
  | [], files => files
  | location :: rest, files =>
    if files.length ≥ maxFiles then files
    else
      let url := if location = "" then apiContentsUrl owner repo
        else apiContentsUrl owner repo ++ "/" ++ location
      match net url with
      | .exn _ => files
      | .err _ _ => typesLocationsLoop net owner repo maxFiles rest files
      | .ok body =>
        match jsonParse body with
        | none => files
        | some (.arr items) =>
          match typesFileLoop net maxFiles location items files with
          | (files', true) => files'
          | (files', false) => typesLocationsLoop net owner repo maxFiles rest files'
        | some _ => typesLocationsLoop net owner repo maxFiles rest files

def typesBlock (net : Net) (owner repo : String) (maxFiles : Nat)
    (files : List FetchedFile) : List FetchedFile :=
  typesLocationsLoop net owner repo maxFiles
    [ "", "types", "typings", "dist", "lib", "@types" ] files

/-- Per-package inner loop of the monorepo pass: entry/type files of one
package (string comparisons on `name` cannot throw here). -/
def pkgFileLoop (net : Net) (maxFiles : Nat) (pkgName : String) :
    List JsonVal → List FetchedFile → List FetchedFile
  | [], files => files
  | fv :: rest, files =>
    if files.length ≥ maxFiles then files
    else if isStrEq (fv.jget "type") "file" &&
        (isStrEq (fv.jget "name") "index.d.ts" || isStrEq (fv.jget "name") "index.ts" ||
          isStrEq (fv.jget "name") "index.js") then
      match fv.jget "name", fv.jget "download_url" with
      | some (.str name), some (.str u) =>
        match net u with
        | .ok content =>
          pkgFileLoop net maxFiles pkgName rest
            (files ++ [⟨"packages/" ++ pkgName ++ "/" ++ name, content,
              extOf name "unknown", none, none, none, none⟩])
        | _ => pkgFileLoop net maxFiles pkgName rest files
      | _, _ => pkgFileLoop net maxFiles pkgName rest files
  else pkgFileLoop net maxFiles pkgName rest files

/-- The package loop of the monorepo pass; the boolean result records an
exception escaping to the block catch. -/
def monorepoPkgLoop (net : Net) (owner repo : String) (maxFiles : Nat) :
    List JsonVal → List FetchedFile → List FetchedFile × Bool
  | [], files => (files, false)
  | pv :: rest, files =>
    if files.length ≥ maxFiles then (files, false)
    else if isStrEq (pv.jget "type") "dir" then
      let pkgName := jstrU (pv.jget "name")
      match net (apiContentsUrl owner repo ++ "/packages/" ++ pkgName ++ "/package.json") with
      | .exn _ => (files, true)
      | .err _ _ => monorepoPkgLoop net owner repo maxFiles rest files
      | .ok body =>
        match jsonParse body with
        | none => (files, true)
        | some pkgJsonData =>
          match pkgJsonData.jget "content" with
          | some (.str b64content) =>
            let pkgJsonContent := b64decode b64content
            let files := files ++ [⟨"packages/" ++ pkgName ++ "/package.json",
              pkgJsonContent, "json", none, none, none, none⟩]
            match net (apiContentsUrl owner repo ++ "/packages/" ++ pkgName) with
            | .exn _ => (files, true)
            | .err _ _ => monorepoPkgLoop net owner repo maxFiles rest files
            | .ok body2 =>
              if files.length < maxFiles then
                match jsonParse body2 with
                | none => (files, true)
                | some (.arr items) =>
                  monorepoPkgLoop net owner repo maxFiles rest
                    (pkgFileLoop net maxFiles pkgName items files)
                | some (.str _) => monorepoPkgLoop net owner repo maxFiles rest files
                | some _ => (files, true)
              else monorepoPkgLoop net owner repo maxFiles rest files
          | _ => (files, true)
      else monorepoPkgLoop net owner repo maxFiles rest files

/-- The monorepo block: list `packages/`, then fetch each package's
manifest and entry/type files (`catch` logs "Not a monorepo" and keeps the
files fetched so far). -/
def monorepoBlock (net : Net) (owner repo : String) (maxFiles : Nat)
    (files : List FetchedFile) : List FetchedFile :=
  match net (apiContentsUrl owner repo ++ "/packages") with
  | .exn _ => files
  | .err _ _ => files
  | .ok body =>
    match jsonParse body with
    | none => files
    | some (.arr pkgs) => (monorepoPkgLoop net owner repo maxFiles pkgs files).1
    | some (.str _) => files
    | some _ => files

/-- The `if (mainFile && files.length < maxFiles)` fetch-and-push of the
manifest-declared entry file (a non-string declared value throws at
`mainFile.split` inside the per-file try, before the push). -/
def pushMainFile (net : Net) (baseUrl branch : String) (maxFiles : Nat)
    (mainFile : Option Js.JsonVal) (files : List FetchedFile) : List FetchedFile :=
  if (mainFile.map JsonVal.truthy).getD false && files.length < maxFiles then
    match net (baseUrl ++ "/" ++ branch ++ "/" ++ jstrU mainFile) with
    | .ok content =>
      match mainFile with
      | some (.str mf) =>
        files ++ [⟨mf, content, extOf mf "js", none, none, none, none⟩]
      | _ => files
    | _ => files
  else files

/-- The `if (typesFile && files.length < maxFiles)` fetch-and-push of the
manifest-declared type-definition file. -/
def pushTypesFile (net : Net) (baseUrl branch : String) (maxFiles : Nat)
    (typesFile : Option Js.JsonVal) (files : List FetchedFile) : List FetchedFile :=
  if (typesFile.map JsonVal.truthy).getD false && files.length < maxFiles then
    match net (baseUrl ++ "/" ++ branch ++ "/" ++ jstrU typesFile) with
    | .ok content =>
      files ++ [⟨jstrU typesFile, content, "d.ts", none, none, none, none⟩]
    | _ => files
  else files

/-- The manifest-declared main/types pass (`searchType` source or all):
parse the untruncated root manifest and fetch its declared entry and type
files verbatim. -/
def mainTypesBlock (net : Net) (baseUrl branch : String) (maxFiles : Nat)
    (files : List FetchedFile) : List FetchedFile :=
  match files.find? (fun f => f.path = "package.json") with
  | none => files
  | some packageJsonFile =>
    if packageJsonFile.truncated.getD false then files
    else
      match jsonParse packageJsonFile.content with
      | none => files
      | some .null => files
      | some pkg =>
        let mainFile := Extract.jsOrV (Extract.jsOrV (pkg.jget "main") (pkg.jget "module"))
          (pkg.jget "browser")
        let typesFile := Extract.jsOrV (pkg.jget "types") (pkg.jget "typings")
        pushTypesFile net baseUrl branch maxFiles typesFile
          (pushMainFile net baseUrl branch maxFiles mainFile files)

end FetchDocs

open FetchDocs in
/-- The `execute` body of `fetch-all-docs`.  `maxFiles` is the fetch
budget (default 50 in the source); a branch-probe network exception is the
only reachable path to the outer catch. -/
def fetchAllDocs (net : Net) (repoUrl : String) (searchType : SearchType)
    (maxFiles : Nat) : FetchResult :=
  let parts := JsStr.jsSplit (JsStr.jsReplaceFirst repoUrl "https://github.com/" "") "/"
  let owner := (parts.get? 0).getD "undefined"
  let repo := (parts.get? 1).getD "undefined"
  let docPaths :=
    (if searchType = .docs || searchType = .all then docsCandidatePaths else []) ++
    (if searchType = .types || searchType = .all then typesCandidatePaths else []) ++
    (if searchType = .source || searchType = .all then sourceCandidatePaths else [])
  let baseUrl := stripSlash (JsStr.jsReplaceFirst repoUrl "github.com"
    "raw.githubusercontent.com")
  match probeBranch net baseUrl with
  | .error m => ⟨[], false, some m, none⟩
  | .ok branch =>
    let files := candidateLoop net baseUrl branch maxFiles docPaths []
    let files :=
      if files.length < maxFiles && (searchType = .all || searchType = .docs) then
        docsDiscovery net owner repo maxFiles files
      else files
    let files :=
      if files.length < maxFiles && (searchType = .types || searchType = .all) then
        typesBlock net owner repo maxFiles files
      else files
    let files :=
      if files.length < maxFiles && (searchType = .types || searchType = .all) then
        monorepoBlock net owner repo maxFiles files
      else files
    let files :=
      if searchType = .source || searchType = .all then
        mainTypesBlock net baseUrl branch maxFiles files
      else files
    { files := files
      success := files.length > 0
      error := if files.length = 0 then some "No documentation files found" else none
      totalFound := some files.length }

/-! ## The repository source resolver (tool `analyze-repository`) -/

structure LangEntry where
  name : String
  /-- `none` models `NaN`. -/
  percentage : Option ℚ
deriving Repr, DecidableEq

structure DocSource where
  type : String
  url : Option String
  path : Option String
  priority : Nat
deriving Repr, DecidableEq

structure PackageManagerInfo where
  name : String
  registry : String
  packageName : String
deriving Repr, DecidableEq

structure ProjectStructure where
  type : String
  mainPath : Option String
  packages : Option (List String)
  hasDocs : Bool
  hasTests : Bool
  hasExamples : Bool
deriving Repr, DecidableEq

structure AnalyzeResult where
  primaryLanguage : String
  languages : List LangEntry
  documentationSources : List DocSource
  packageManager : Option PackageManagerInfo
  projectStructure : ProjectStructure
  success : Bool
  error : Option String
deriving Repr, DecidableEq

namespace Analyze

open JsStr JsRe Js Js.JsonVal FetchDocs

/-- Numeric value of a JSON number lexeme as an exact rational. -/
def lexQ (lex : String) : Option ℚ :=
  let cs := lex.data
  let (sgn, cs) : ℚ × List Char :=
    if cs.head? = some '-' then (-1, cs.drop 1) else (1, cs)
  let intDigs := cs.takeWhile JsRe.isDigitCh
  let cs := cs.drop intDigs.length
  let (fracDigs, cs) : List Char × List Char :=
    if cs.head? = some '.' then
      let f := (cs.drop 1).takeWhile JsRe.isDigitCh
      (f, (cs.drop 1).drop f.length)
    else ([], cs)
  let (expVal, cs) : ℤ × List Char :=
    if cs.head? = some 'e' || cs.head? = some 'E' then
      let r := cs.drop 1
      let (esgn, r) : ℤ × List Char :=
        if r.head? = some '-' then (-1, r.drop 1)
        else if r.head? = some '+' then (1, r.drop 1) else (1, r)
      let eds := r.takeWhile JsRe.isDigitCh
      (esgn * (eds.foldl (fun a c => a * 10 + (c.toNat - 48)) 0 : Nat), r.drop eds.length)
    else (0, cs)
  if intDigs.isEmpty || !cs.isEmpty then none
  else
    let mant : Nat := (intDigs ++ fracDigs).foldl (fun a c => a * 10 + (c.toNat - 48)) 0
    some (sgn * (mant : ℚ) / (10 : ℚ) ^ fracDigs.length * (10 : ℚ) ^ (expVal : ℤ))

/-- `ToNumber` restricted to the languages histogram: numbers keep their
exact value, everything else is modelled as `NaN` (the endpoint returns an
object of byte counts; JavaScript would coerce other shapes through string
concatenation before dividing). -/
def toNumberModel : JsonVal → Option ℚ
  | .num lex => lexQ lex
  | _ => none

/-- `NaN`-propagating addition (`none` is `NaN`). -/
def jsAddQ (a b : Option ℚ) : Option ℚ :=
  match a, b with
  | some x, some y => some (x + y)
  | _, _ => none

/-- `NaN`-propagating division; division by zero (`Infinity`/`NaN` in
JavaScript) is also modelled as `none`. -/
def jsDivQ (a b : Option ℚ) : Option ℚ :=
  match a, b with
  | some x, some y => if y = 0 then none else some (x / y)
  | _, _ => none

def jsMulQ (a b : Option ℚ) : Option ℚ :=
  match a, b with
  | some x, some y => some (x * y)
  | _, _ => none

/-- `Math.round` (`⌊x + 1/2⌋`, exact on rationals). -/
def jsRoundQ (a : Option ℚ) : Option ℚ :=
  a.map (fun q => ((⌊q + 1 / 2⌋ : ℤ) : ℚ))

/-- Merge step of the stable sort (fuel-structural so the kernel can
evaluate it; the fuel never runs out when it starts at the combined
length). -/
def mergeL {α : Type} (le : α → α → Bool) : Nat → List α → List α → List α
  | 0, xs, ys => xs ++ ys
  | _ + 1, [], ys => ys
  | _ + 1, xs, [] => xs
  | fuel + 1, x :: xs, y :: ys =>
    if le x y then x :: mergeL le fuel xs (y :: ys)
    else y :: mergeL le fuel (x :: xs) ys

/-- Stable top-down merge sort (split into first and second half), the
model of `Array.prototype.sort` with a comparator; fuel-structural. -/
def msort {α : Type} (le : α → α → Bool) : Nat → List α → List α
  | 0, xs => xs
  | fuel + 1, xs =>
    if xs.length ≤ 1 then xs
    else
      let n := xs.length / 2
      mergeL le (xs.length + 1) (msort le fuel (xs.take n)) (msort le fuel (xs.drop n))

/-- `Array.prototype.sort` with a ≤-comparator (stable). -/
def jsSortBy {α : Type} (le : α → α → Bool) (xs : List α) : List α :=
  msort le xs.length xs

/-- The sort comparator `(a, b) => b.percentage - a.percentage` as a
stable ≤-relation (`NaN` differences compare as equal). -/
def langLe (a b : LangEntry) : Bool :=
  match a.percentage, b.percentage with
  | some x, some y => y ≤ x
  | _, _ => true

/-- `DOC_PATTERNS.websites`. -/
def docWebsitePats : List CRe :=
  [ reC "https?:\\/\\/[\\w.-]+\\.(?:io|dev|com|org|net)\\/(?:docs?|api|reference)" "i"
  , reC "documentation.*(?:url|site|link)" "i"
  , reC "(?:docs?|api).*https?:\\/\\/" "i" ]

def urlExtractRe : CRe := reC "https?:\\/\\/[^\\s)>\\]]+" ""

/-- `DOC_SITES`. -/
def DOC_SITES : List (String × List String) :=
  [ ("javascript", ["npmjs.com", "unpkg.com", "jsdelivr.com", "nodejs.org"])
  , ("python", ["readthedocs.io", "pypi.org", "python.org", "sphinx-doc.org"])
  , ("java", ["javadoc.io", "maven.org", "docs.oracle.com"])
  , ("rust", ["docs.rs", "crates.io", "rust-lang.org"])
  , ("go", ["pkg.go.dev", "godoc.org", "golang.org"])
  , ("ruby", ["rubydoc.info", "rubygems.org", "ruby-doc.org"])
  , ("cpp", ["cppreference.com", "cplusplus.com", "doxygen.org"])
  , ("csharp", ["docs.microsoft.com", "nuget.org"])
  , ("php", ["php.net", "packagist.org", "phpdoc.org"])
  , ("swift", ["developer.apple.com", "swiftpackageindex.com"])
  , ("kotlin", ["kotlinlang.org", "dokka.dev"]) ]

/-- `PACKAGE_MANAGERS` (entry order is the object-literal order). -/
def PACKAGE_MANAGERS : List (String × String × String) :=
  [ ("package.json", "npm", "https://registry.npmjs.org/")
  , ("Cargo.toml", "cargo", "https://crates.io/")
  , ("pom.xml", "maven", "https://search.maven.org/")
  , ("build.gradle", "gradle", "https://search.maven.org/")
  , ("requirements.txt", "pip", "https://pypi.org/")
  , ("setup.py", "pip", "https://pypi.org/")
  , ("pyproject.toml", "pip", "https://pypi.org/")
  , ("go.mod", "go", "https://pkg.go.dev/")
  , ("Gemfile", "bundler", "https://rubygems.org/")
  , ("*.gemspec", "gem", "https://rubygems.org/")
  , ("composer.json", "composer", "https://packagist.org/")
  , ("Package.swift", "spm", "https://swiftpackageindex.com/")
  , ("*.csproj", "nuget", "https://www.nuget.org/") ]

/-- The readme-scanning block: on a successful readme fetch, a readme
source plus website sources extracted from the text; on any failure, no
sources (the internal catch only logs). -/
def readmeBlock (net : Net) (owner repo repoUrlStr primaryLanguage : String) :
    List DocSource :=
  match net (apiRepoUrl owner repo ++ "/readme") with
  | .ok readmeContent =>
    let s1 : List DocSource := [⟨"readme", none, some "README.md", 2⟩]
    let s2 := docWebsitePats.flatMap (fun p =>
      match rFind p readmeContent with
      | none => []
      | some m =>
        match rFind urlExtractRe (mFull readmeContent m) with
        | none => []
        | some um => [⟨"website", some (mFull (mFull readmeContent m) um), none, 1⟩])
    let langDocSites := ((DOC_SITES.find? (fun kv => kv.1 = primaryLanguage)).map
      Prod.snd).getD []
    let s3 := langDocSites.flatMap (fun site =>
      if jsIncludes readmeContent site then
        let urlPattern := reC ("https?://[\\w.-]*" ++ site ++ "[/\\w.-]*") "gi"
        match rMatchG urlPattern readmeContent with
        | some (m0 :: _) => [⟨"website", some m0, none, 1⟩]
        | _ => []
      else [])
    let _ := repoUrlStr
    s1 ++ s2 ++ s3
  | _ => []

/-- `fileNames.some(name => name.endsWith(suf))`; `none` models the
`TypeError` thrown on a non-string entry. -/
def someEndsWithE : List (Option JsonVal) → String → Option Bool
  | [], _ => some false
  | some (.str s) :: rest, suf =>
    if jsEndsWith s suf then some true else someEndsWithE rest suf
  | _ :: _, _ => none

/-- `fileNames.some(name => lits.includes(name.toLowerCase()))`; `none`
models the `TypeError` on a non-string entry. -/
def someLowerMemE : List (Option JsonVal) → List String → Option Bool
  | [], _ => some false
  | some (.str s) :: rest, lits =>
    if lits.contains (jsToLower s) then some true else someLowerMemE rest lits
  | _ :: _, _ => none

/-- `fileNames.some(name => lits.some(doc => name.toLowerCase().includes(doc)))`. -/
def someLowerInclE : List (Option JsonVal) → List String → Option Bool
  | [], _ => some false
  | some (.str s) :: rest, lits =>
    if lits.any (fun doc => jsIncludes (jsToLower s) doc) then some true
    else someLowerInclE rest lits
  | _ :: _, _ => none

/-- `name === file` over the listing (strict equality never throws). -/
def anyStrEq (names : List (Option JsonVal)) (lit : String) : Bool :=
  names.any (fun v => isStrEq v lit)

/-- The package-manager table walk; `none` models a thrown `TypeError`. -/
def pmLoop (names : List (Option JsonVal)) :
    List (String × String × String) → Option (Option (String × String × String))
  | [] => some none
  | (file, pmName, registry) :: rest =>
    if jsIncludes file "*" then
      match someEndsWithE names (jsReplaceFirst file "*" "") with
      | none => none
      | some true => some (some (file, pmName, registry))
      | some false => pmLoop names rest
    else if anyStrEq names file then some (some (file, pmName, registry))
    else pmLoop names rest

/-- The root-contents block: package-manager binding plus docs-directory
sources; any thrown error keeps what was accumulated before it. -/
def contentsBlock (net : Net) (owner repo packageName : String) :
    Option PackageManagerInfo × List DocSource :=
  match net (apiContentsUrl owner repo) with
  | .ok body =>
    match jsonParse body with
    | some (.arr items) =>
      let names := items.map (fun it => it.jget "name")
      match pmLoop names PACKAGE_MANAGERS with
      | none => (none, [])
      | some pmHit =>
        let pm := pmHit.map (fun e => (⟨e.2.1, e.2.2, packageName⟩ : PackageManagerInfo))
        let srcs1 := match pm with
          | some info => [(⟨"registry", some (info.registry ++ packageName), none, 2⟩ : DocSource)]
          | none => []
        match someLowerMemE names ["docs", "documentation", "doc", "api"] with
        | none => (pm, srcs1)
        | some hasDocs =>
          let srcs2 := srcs1 ++ (if hasDocs then [(⟨"source", none, some "docs/", 4⟩ : DocSource)] else [])
          match someLowerInclE names ["javadoc", "rustdoc", "godoc", "yard", "doxygen", "sphinx"] with
          | none => (pm, srcs2)
          | some hasGen =>
            (pm, srcs2 ++ (if hasGen then [(⟨"generated", none, some "generated-docs/", 3⟩ : DocSource)] else []))
    | _ => (none, [])
  | _ => (none, [])

def psDefault : ProjectStructure := ⟨"standard", none, none, false, false, false⟩

/-- `determineProjectStructure` (helper with its own catch-to-default). -/
def determineProjectStructure (net : Net) (owner repo : String) : ProjectStructure :=
  match net (apiContentsUrl owner repo) with
  | .ok body =>
    match jsonParse body with
    | some (.arr items) =>
      let rawNames := items.map (fun it => it.jget "name")
      if rawNames.all (fun v => (v.map isStr).getD false) then
        let fileNames := rawNames.filterMap (fun v => (v.bind asStr).map jsToLower)
        let dirNames := (items.filter (fun it => isStrEq (it.jget "type") "dir")).filterMap
          (fun it => ((it.jget "name").bind asStr).map jsToLower)
        let isMonorepo := fileNames.contains "lerna.json" ||
          fileNames.contains "rush.json" || fileNames.contains "pnpm-workspace.yaml" ||
          fileNames.contains "nx.json" || dirNames.contains "packages"
        let isMultiPackage := (dirNames.filter
          (fun name => ["packages", "libs", "modules", "components"].contains name)).length > 0
        let hasDocs := dirNames.any
          (fun name => ["docs", "documentation", "doc", "api"].contains name)
        let hasTests := dirNames.any
          (fun name => ["test", "tests", "spec", "specs", "__tests__"].contains name)
        let hasExamples := dirNames.any
          (fun name => ["examples", "example", "demo", "demos", "samples"].contains name)
        let mainPath :=
          if dirNames.contains "src" then some "src/"
          else if dirNames.contains "lib" then some "lib/"
          else if dirNames.contains "app" then some "app/"
          else none
        let packages :=
          if isMonorepo && dirNames.contains "packages" then
            match net (apiContentsUrl owner repo ++ "/packages") with
            | .ok pbody =>
              match jsonParse pbody with
              | some (.arr pitems) =>
                some ((pitems.filter (fun it => isStrEq (it.jget "type") "dir")).map
                  (fun it => jstrU (it.jget "name")))
              | _ => none
            | _ => none
          else none
        { type := if isMonorepo then "monorepo"
            else if isMultiPackage then "multi-package" else "standard"
          mainPath := mainPath
          packages := packages
          hasDocs := hasDocs
          hasTests := hasTests
          hasExamples := hasExamples }
      else psDefault
    | _ => psDefault
  | _ => psDefault

end Analyze

open Analyze FetchDocs JsStr Js Js.JsonVal in
/-- The `execute` body of `analyze-repository`.  The metadata fetch and
parse, the languages fetch (a rejection propagates: it is not wrapped in
any inner try) and the languages-body parse and enumeration run before any
facet-local error handling; readme scanning, root-contents scanning and
structure determination recover internally. -/
def analyzeRepository (net : Net) (repoUrl : String) : AnalyzeResult :=
  let parts := jsSplit (jsReplaceFirst repoUrl "https://github.com/" "") "/"
  let owner := (parts.get? 0).getD "undefined"
  let repo := (parts.get? 1).getD "undefined"
  let core : Except String AnalyzeResult :=
    match net (apiRepoUrl owner repo) with
    | .exn m => .error m
    | .err status _ => .error ("Failed to fetch repository metadata: " ++ toString status)
    | .ok body =>
      match jsonParse body with
      | none => .error "Unexpected token in JSON"
      | some repoData =>
        match net (apiRepoUrl owner repo ++ "/languages") with
        | .exn m => .error m
        | .ok lbody | .err _ lbody =>
          match jsonParse lbody with
          | none => .error "Unexpected token in JSON"
          | some languagesData =>
            match languagesData.valuesJ, languagesData.entries with
            | some vals, some kvs =>
              let totalBytes := vals.foldl (fun acc v => jsAddQ acc (toNumberModel v))
                (some 0)
              let languages := jsSortBy langLe (kvs.map (fun kv =>
                (⟨kv.1, jsRoundQ (jsMulQ (jsDivQ (toNumberModel kv.2) totalBytes)
                  (some 100))⟩ : LangEntry)))
              let primaryLanguage :=
                jsOrStr (languages.head?.map (fun l => jsToLower l.name)) "unknown"
              let homepageSrc : Except String (List DocSource) :=
                match repoData.jget "homepage" with
                | some (.str h) =>
                  if h ≠ "" && jsIncludes h "http" then
                    .ok [⟨"website", some h, none, 1⟩]
                  else .ok []
                | some v => if v.truthy then .error "homepage.includes is not a function"
                    else .ok []
                | none => .ok []
              match homepageSrc with
              | .error m => .error m
              | .ok s0 =>
                let s1 := if ((repoData.jget "has_wiki").map truthy).getD false then
                    [(⟨"wiki", some (repoUrl ++ "/wiki"), none, 3⟩ : DocSource)]
                  else []
                let packageName := jstrU (repoData.jget "name")
                let readmeSrcs := readmeBlock net owner repo repoUrl primaryLanguage
                let (packageManager, contentsSrcs) := contentsBlock net owner repo packageName
                let projectStructure := determineProjectStructure net owner repo
                let documentationSources :=
                  jsSortBy (fun a b => a.priority ≤ b.priority)
                    (s0 ++ s1 ++ readmeSrcs ++ contentsSrcs)
                .ok
                  { primaryLanguage := primaryLanguage
                    languages := languages
                    documentationSources := documentationSources
                    packageManager := packageManager
                    projectStructure := projectStructure
                    success := true
                    error := none }
            | _, _ => .error "Cannot convert undefined or null to object"
  match core with
  | .ok r => r
  | .error e =>
    { primaryLanguage := "unknown"
      languages := []
      documentationSources := []
      packageManager := none
      projectStructure := Analyze.psDefault
      success := false
      error := some e }

/-! ## The generic documentation crawler (tool `scrape-documentation`) -/

/-- A scraped API record. -/
structure ScrapeApi where
  name : String
  signature : String
  description : String
  url : String
  category : String
deriving Repr, DecidableEq

structure ScrapeResult where
  apis : List ScrapeApi
  pagesScraped : Nat
  success : Bool
  error : Option String
deriving Repr, DecidableEq

namespace Scrape

open JsStr JsRe

/-- One `SITE_PATTERNS` profile (`structureTag` embeds the `structure`
field, whose name is reserved in Lean). -/
structure SitePattern where
  apiPath : String
  apiListSelector : String
  methodSelector : String
  signatureSelector : String
  descriptionSelector : String
  structureTag : String
deriving Repr, DecidableEq

def SITE_PATTERNS : List (String × SitePattern) :=
  [ ("react.dev", ⟨"/reference/react", "a[href*=\"/reference/react/\"]", "h1, h2, h3",
      "pre code, .code-block", "p", "react-style"⟩)
  , ("vuejs.org", ⟨"/api/", ".api-list a, .sidebar-link", "h2, h3", "pre code",
      ".api-description, p", "vue-style"⟩)
  , ("angular.io", ⟨"/api", ".api-list-item a", "h1.api-header", "code.api-doc-code",
      ".api-body", "angular-style"⟩)
  , ("lodash.com", ⟨"/docs", ".toc-container a", "h3", "pre", ".doc-desc",
      "lodash-style"⟩)
  , ("expressjs.com", ⟨"/en/api.html", "#menu a", "h2, h3", "pre code", "p",
      "express-style"⟩)
  , ("docs.python.org", ⟨"/3/library/", ".toctree-wrapper a", "dt.sig",
      ".sig-prename, .sig-name", "dd", "python-style"⟩)
  , ("ruby-doc.org", ⟨"/core/", "#class-index a, #method-index a", ".method-heading",
      ".method-callseq", ".method-description", "ruby-style"⟩)
  , ("docs.rs", ⟨"/", ".sidebar-elems a", "h3.code-header", "pre.rust", ".docblock",
      "rust-style"⟩)
  , ("pkg.go.dev", ⟨"/", ".Documentation-index a", "h3.Documentation-typeFunc", "pre",
      ".Documentation-content p", "go-style"⟩)
  , ("docs.oracle.com", ⟨"/javase/", ".contentContainer a", "h3.method-heading", "pre",
      ".block", "java-style"⟩)
  , ("readthedocs.io", ⟨"/en/latest/", ".toctree-wrapper a, .sidebar a", "dt", ".sig",
      "dd", "sphinx-style"⟩)
  , ("developer.mozilla.org", ⟨"/en-US/docs/", ".sidebar a", "h2, h3", "pre.syntaxbox",
      "p", "mdn-style"⟩) ]

/-- `GENERIC_PATTERNS.methodSelectors` (the only generic selector list the
code executes; the api/signature/description selector lists are defined in
the source but never read). -/
def genericMethodSelectors : List String :=
  [ "h1", "h2", "h3", ".method-name", ".function-name", ".api-name",
    "[class*=\"method\"]", "[class*=\"function\"]" ]

/-- Selector-to-regex-fragment rewriting used for signature/description
patterns: `.split(', ').join('|')`, every `.` replaced, and a suffix
appended at the very end (`.replace(/$/g, ...)`). -/
def selFragment (sel : String) : String :=
  let joined := jsJoin (jsSplit sel ", ") "|"
  jsReplaceAllCh joined '.' "[^>]*class=\"[^\"]*" ++ "[^\"]*\""

def nameStartRe : CRe := reC "^[a-zA-Z_$]" ""

def codePatternRe : CRe := reC "<(?:pre|code)[^>]*>([^<]+)<" "i"

def paraPatternRe : CRe := reC "<p[^>]*>([^<]+)<" "i"

def linkPatternRe : CRe := reC "<a[^>]*href=\"([^\"]+)\"[^>]*>" "gi"

def genericLinkFilterRe : CRe := reC "api|reference|docs|methods|functions|classes" "i"

/-- `extractAPIsFromHTML` with a site-specific profile. -/
def siteExtract (patterns : SitePattern) (html pageUrl : String) : List ScrapeApi :=
  let methodPattern :=
    reC ("<(" ++ jsJoin (jsSplit patterns.methodSelector ", ") "|" ++ ")[^>]*>([^<]+)<") "gi"
  (rExecAll methodPattern html).filterMap (fun m =>
    let methodName := jsTrim ((mGrp html m 2).getD "")
    if methodName.length < 2 || methodName.length > 100 then none
    else if !(rTest nameStartRe methodName) then none
    else
      let contextStart := m.start - 500
      let contextEnd := min html.length (m.start + 2000)
      let context := jsSubstring html contextStart contextEnd
      let sigPattern := reC ("<(?:" ++ selFragment patterns.signatureSelector ++ ")[^>]*>([^<]+)<") "i"
      let signature :=
        match rFind sigPattern context with
        | some sm => jsTrim ((mGrp context sm 1).getD "")
        | none => methodName
      let descPattern := reC ("<(?:" ++ selFragment patterns.descriptionSelector ++ ")[^>]*>([^<]+)<") "i"
      let description :=
        match rFind descPattern context with
        | some dm => jsSubstring (jsTrim ((mGrp context dm 1).getD "")) 0 200
        | none => ""
      some ⟨methodName, signature, jsOrStr (some description) "API method", pageUrl,
        patterns.structureTag⟩)

/-- `extractAPIsFromHTML` with the generic fallback profile. -/
def genericExtract (html pageUrl : String) : List ScrapeApi :=
  genericMethodSelectors.flatMap (fun selector =>
    let pattern := reC ("<[^>]*(?:class|id)=\"[^\"]*" ++ jsReplaceFirst selector "." "" ++
      "[^\"]*\"[^>]*>([^<]+)<") "gi"
    (rExecAll pattern html).filterMap (fun m =>
      let methodName := jsTrim ((mGrp html m 1).getD "")
      if methodName.length < 2 || methodName.length > 100 then none
      else if !(rTest nameStartRe methodName) then none
      else
        let context := jsSubstring html m.start (min html.length (m.start + 1500))
        let signature :=
          match rFind codePatternRe context with
          | some cm => jsTrim ((mGrp context cm 1).getD "")
          | none => methodName
        let description :=
          match rFind paraPatternRe context with
          | some pm => jsSubstring (jsTrim ((mGrp context pm 1).getD "")) 0 200
          | none => ""
        some ⟨methodName, signature, jsOrStr (some description) "API method", pageUrl,
          "generic"⟩))

def extractAPIsFromHTML (patterns : Option SitePattern) (html pageUrl : String) :
    List ScrapeApi :=
  match patterns with
  | some p => siteExtract p html pageUrl
  | none => genericExtract html pageUrl

/-- `new URL(s)` reduced to the fields the crawler reads: protocol
(`https:`), host (with port) and pathname (query and fragment stripped);
`none` models a thrown `TypeError` for strings without a `://`. -/
def parseURL (s : String) : Option (String × String × String) :=
  match jsSplit s "://" with
  | scheme :: rest0 :: rest =>
    if scheme = "" then none
    else
      let after := jsJoin (rest0 :: rest) "://"
      let host := ⟨after.data.takeWhile (fun c => c ≠ '/' && c ≠ '?' && c ≠ '#')⟩
      let path0 : String := ⟨(after.data.drop host.length).takeWhile (fun c => c ≠ '?' && c ≠ '#')⟩
      if host = "" then none
      else some (scheme ++ ":", host, if path0 = "" then "/" else path0)
  | _ => none

/-- `pathname.lastIndexOf('/')` over the parsed pathname (always ≥ 0 since
parsed pathnames start with `/`). -/
def lastSlashIdx (s : String) : Nat :=
  (s.data.enum.filter (fun p => p.2 = '/')).foldl (fun _ p => p.1) 0

/-- `extractLinks`; `none` models an exception while resolving a relative
link (`new URL(baseUrl)` threw), which discards the whole link list. -/
def extractLinks (patterns : Option SitePattern) (html baseUrl : String) :
    Option (List String) :=
  (rExecAll linkPatternRe html).foldl
    (fun acc m =>
      match acc with
      | none => none
      | some links =>
        let href := (mGrp html m 1).getD ""
        let absOpt : Option String :=
          if jsStartsWith href "/" then
            (parseURL baseUrl).map (fun u => u.1 ++ "//" ++ u.2.1 ++ href)
          else if !(jsStartsWith href "http") then
            (parseURL baseUrl).map (fun u =>
              let basePath := jsSubstring u.2.2 0 (lastSlashIdx u.2.2)
              u.1 ++ "//" ++ u.2.1 ++ basePath ++ "/" ++ href)
          else some href
        match absOpt with
        | none => none
        | some absoluteUrl =>
          let keep :=
            match patterns with
            | some p => jsIncludes href p.apiPath || jsIncludes href "api" ||
                jsIncludes href "reference"
            | none => rTest genericLinkFilterRe href
          some (if keep then links ++ [absoluteUrl] else links))
    (some [])

/-- The bounded breadth-first crawl loop.  Per-iteration failures
(rejection, non-2xx, or a link-resolution exception after a page was
scraped) skip to the next frontier entry. -/
def crawlLoop (net : Net) (patterns : Option SitePattern) (maxPages : Nat) :
    List String → List String → List ScrapeApi → Nat → List ScrapeApi × Nat
  | [], _, apis, ps => (apis, ps)
  | url :: rest, visited, apis, ps =>
    if ps < maxPages then
      if visited.contains url then crawlLoop net patterns maxPages rest visited apis ps
      else
        let visited' := url :: visited
        match net url with
        | .exn _ => crawlLoop net patterns maxPages rest visited' apis ps
        | .err _ _ => crawlLoop net patterns maxPages rest visited' apis ps
        | .ok html =>
          let apis' := apis ++ extractAPIsFromHTML patterns html url
          if ps + 1 < maxPages then
            match extractLinks patterns html url with
            | none => crawlLoop net patterns maxPages rest visited' apis' (ps + 1)
            | some links =>
              let frontier := links.foldl
                (fun acc link =>
                  if visited'.contains link || acc.contains link then acc
                  else acc ++ [link]) rest
              crawlLoop net patterns maxPages frontier visited' apis' (ps + 1)
          else crawlLoop net patterns maxPages rest visited' apis' (ps + 1)
    else (apis, ps)
termination_by frontier visited apis ps => (maxPages - ps, frontier.length)
decreasing_by
  all_goals simp_wf
  all_goals first
    | exact Prod.Lex.right _ (by simp [Nat.lt_succ_self])
    | exact Prod.Lex.left _ _ (by omega)

/-- Dedup on the string key `` `${name}:${signature}` ``. -/
def dedupScrape : List ScrapeApi → List String → List ScrapeApi
  | [], _ => []
  | a :: rest, seen =>
    let key := a.name ++ ":" ++ a.signature
    if seen.contains key then dedupScrape rest seen
    else a :: dedupScrape rest (key :: seen)

end Scrape

open Scrape in
/-- The `execute` body of `scrape-documentation` (`maxPages` defaults to
10 in the source; the `language` input is never read).  No statement in the
body can throw past the per-page catch, so the outer catch is
unreachable. -/
def scrapeDocumentation (net : Net) (url : String) (maxPages : Nat) : ScrapeResult :=
  let sitePattern := SITE_PATTERNS.find? (fun kv => JsStr.jsIncludes url kv.1)
  let patterns := sitePattern.map Prod.snd
  let (apis, pagesScraped) := crawlLoop net patterns maxPages [url] [] [] 0
  let uniqueApis := dedupScrape apis []
  { apis := uniqueApis
    pagesScraped := pagesScraped
    success := uniqueApis.length > 0
    error := if uniqueApis.length = 0 then some "No APIs found" else none }

/-! ## Concrete fixtures used by the theorems below -/

/-- The end-to-end example A input. -/
def c1content : String := "# Intro\n\nHello\n\n## API\n* `foo(x)` - does foo\n"

/-- The second section body of example A. -/
def c1sec2 : String := "* `foo(x)` - does foo"

/-- The end-to-end example B manifest. -/
def c6manifest : String :=
  "\x7b\"exports\":\x7b\".\":\"./index.js\"\x7d,\"main\":\"./index.js\",\"types\":\"./index.d.ts\"\x7d"

/-- A 200001-character file body. -/
def bigA : String := ⟨List.replicate 200001 'a'⟩

/-- A repository whose `docs/` directory lists `changelog.rst`. -/
def netChangelogRst : Net := fun url =>
  if url = "https://api.github.com/repos/o/r/contents/docs" then
    .ok "[\x7b\"type\":\"file\",\"name\":\"changelog.rst\",\"download_url\":\"u1\"\x7d]"
  else if url = "u1" then .ok "some rst content"
  else .err 404 ""

/-- A repository whose root listing holds an oversized `big.d.ts`. -/
def netBigDts : Net := fun url =>
  if url = "https://api.github.com/repos/o/r/contents" then
    .ok "[\x7b\"type\":\"file\",\"name\":\"big.d.ts\",\"download_url\":\"u2\"\x7d]"
  else if url = "u2" then .ok bigA
  else .err 404 ""

/-- A repository whose metadata fetch succeeds but whose language-histogram
fetch rejects with a network exception. -/
def netLangExn : Net := fun url =>
  if url = "https://api.github.com/repos/o/r" then
    .ok "\x7b\"name\":\"r\",\"has_wiki\":true\x7d"
  else if url = "https://api.github.com/repos/o/r/languages" then .exn "network down"
  else .err 404 ""

/-- Metadata and languages succeed; the readme fetch rejects. -/
def netReadmeExn : Net := fun url =>
  if url = "https://api.github.com/repos/o/r" then
    .ok "\x7b\"name\":\"r\",\"has_wiki\":true\x7d"
  else if url = "https://api.github.com/repos/o/r/languages" then
    .ok "\x7b\"TypeScript\":300,\"JavaScript\":100\x7d"
  else if url = "https://api.github.com/repos/o/r/readme" then .exn "boom"
  else .err 404 ""

/-- Metadata and languages succeed; the root-contents listing rejects. -/
def netContentsExn : Net := fun url =>
  if url = "https://api.github.com/repos/o/r" then
    .ok "\x7b\"name\":\"r\"\x7d"
  else if url = "https://api.github.com/repos/o/r/languages" then
    .ok "\x7b\"TypeScript\":300\x7d"
  else if url = "https://api.github.com/repos/o/r/contents" then .exn "boom"
  else .err 404 ""

/-- Metadata 404s. -/
def netMetaErr : Net := fun _ => .err 404 "\x7b\"message\":\"Not Found\"\x7d"

/-- The owner/repo parsing shared by the resolver's request URLs. -/
def ownerRepoOf (repoUrl : String) : String × String :=
  let parts := JsStr.jsSplit (JsStr.jsReplaceFirst repoUrl "https://github.com/" "") "/"
  ((parts.get? 0).getD "undefined", (parts.get? 1).getD "undefined")

/-- The resolver's repository-metadata URL for a repository URL. -/
def repoApiUrlOf (repoUrl : String) : String :=
  FetchDocs.apiRepoUrl (ownerRepoOf repoUrl).1 (ownerRepoOf repoUrl).2

/-- The resolver's language-histogram URL. -/
def languagesUrlOf (repoUrl : String) : String := repoApiUrlOf repoUrl ++ "/languages"

/-- The resolver's readme URL. -/
def readmeUrlOf (repoUrl : String) : String := repoApiUrlOf repoUrl ++ "/readme"

/-- The resolver's root-contents URL. -/
def contentsUrlOf (repoUrl : String) : String := repoApiUrlOf repoUrl ++ "/contents"

/-- The resolver's total-failure result. -/
def failureResult (e : String) : AnalyzeResult :=
  { primaryLanguage := "unknown"
    languages := []
    documentationSources := []
    packageManager := none
    projectStructure := Analyze.psDefault
    success := false
    error := some e }

/-- The homepage field shapes under which `repoData.homepage &&
repoData.homepage.includes('http')` cannot throw: absent, a string, or a
falsy value. -/
def homepageShapeOk (repoData : Js.JsonVal) : Bool :=
  match repoData.jget "homepage" with
  | none => true
  | some (.str _) => true
  | some v => !v.truthy

/-- The fenced-heading inputs of the unterminated-fence theorem. -/
def c10pre : List String := ["# T", "before"]

def c10suffix : List String := ["secret()", "stuff"]

def c10content : String := "# T\nbefore\n```js\nsecret()\nstuff"

/-! # Theorems -/

set_option maxRecDepth 100000

/-! ## Deduplication lemmas -/

theorem dedupBySignature_sublist (l : List Api) (seen : List String) :
    (dedupBySignature l seen).Sublist l := by
  induction l generalizing seen with
  | nil => simp [dedupBySignature]
  | cons a rest ih =>
    simp only [dedupBySignature]
    split
    · exact (ih seen).cons a
    · exact (ih _).cons₂ a

theorem dedupBySignature_spec (l : List Api) (seen : List String) :
    ∀ a ∈ dedupBySignature l seen, seen.contains a.signature = false ∧
      l.find? (fun b => b.signature == a.signature) = some a := by
  induction l generalizing seen with
  | nil => simp [dedupBySignature]
  | cons b rest ih =>
    intro a ha
    simp only [dedupBySignature] at ha
    by_cases h : seen.contains b.signature
    · simp only [h, if_true] at ha
      obtain ⟨hseen, hfind⟩ := ih seen a ha
      have hne : b.signature ≠ a.signature := by
        intro he
        rw [he] at h
        rw [h] at hseen
        exact Bool.noConfusion hseen
      refine ⟨hseen, ?_⟩
      rw [List.find?_cons_of_neg, hfind]
      simp [hne]
    · simp only [h, if_false] at ha
      rcases List.mem_cons.mp ha with rfl | ha'
      · refine ⟨Bool.not_eq_true _ ▸ by simpa using h, ?_⟩
        rw [List.find?_cons_of_pos]
        simp
      · obtain ⟨hseen, hfind⟩ := ih (b.signature :: seen) a ha'
        simp only [List.contains_cons, Bool.or_eq_false_iff] at hseen
        obtain ⟨h1, h2⟩ := hseen
        refine ⟨h2, ?_⟩
        rw [List.find?_cons_of_neg, hfind]
        intro hc
        simp only [beq_iff_eq] at hc h1
        exact absurd hc.symm (by simpa using h1)

theorem dedupBySignature_nodup (l : List Api) (seen : List String) :
    ((dedupBySignature l seen).map (fun a => a.signature)).Nodup ∧
      ∀ s ∈ (dedupBySignature l seen).map (fun a => a.signature),
        seen.contains s = false := by
  induction l generalizing seen with
  | nil => simp [dedupBySignature]
  | cons b rest ih =>
    simp only [dedupBySignature]
    by_cases h : seen.contains b.signature = true
    · rw [if_pos h]
      exact ih seen
    · have h' : seen.contains b.signature = false := by
        cases hc : seen.contains b.signature
        · rfl
        · exact absurd hc h
      rw [if_neg h]
      simp only [List.map_cons, List.nodup_cons]
      obtain ⟨ihn, ihs⟩ := ih (b.signature :: seen)
      refine ⟨⟨?_, ihn⟩, ?_⟩
      · intro hmem
        have h2 := ihs _ hmem
        simp [List.contains_cons] at h2
      · intro s hs
        rcases List.mem_cons.mp hs with rfl | hs'
        · exact h'
        · have h2 := ihs _ hs'
          simp only [List.contains_cons, Bool.or_eq_false_iff] at h2
          exact h2.2

/-- C3: a single extraction call returns a list with pairwise-distinct
signature strings, a sublist of the raw pattern-pass output in which each
entry is the first raw entry bearing its signature (dedup keeps the first
occurrence), and extraction is a pure function, so a second call on
identical input returns the identical, order-stable list. -/
theorem c3_extractor_dedup_idempotent (content contentType : String) :
    ((extractAllApis content contentType).apis.map (fun a => a.signature)).Nodup ∧
    (extractAllApis content contentType).apis.Sublist
      (extractApisRaw content contentType) ∧
    (∀ a ∈ (extractAllApis content contentType).apis,
      (extractApisRaw content contentType).find?
        (fun b => b.signature == a.signature) = some a) ∧
    extractAllApis content contentType = extractAllApis content contentType := by
  refine ⟨(dedupBySignature_nodup _ []).1, dedupBySignature_sublist _ [],
    fun a ha => (dedupBySignature_spec _ [] a ha).2, rfl⟩

/-- C3 witness at a concrete input. -/
theorem c3_extractor_dedup_idempotent_witness :
    (((extractAllApis c1sec2 "md").apis.map (fun a => a.signature)).Nodup ∧
    (extractAllApis c1sec2 "md").apis.Sublist (extractApisRaw c1sec2 "md") ∧
    (∀ a ∈ (extractAllApis c1sec2 "md").apis,
      (extractApisRaw c1sec2 "md").find? (fun b => b.signature == a.signature) = some a) ∧
    extractAllApis c1sec2 "md" = extractAllApis c1sec2 "md") :=
  c3_extractor_dedup_idempotent c1sec2 "md"

/-- C1 counterexample: extracting from the second section's body with
declaredKind markdown yields no entry whose signature is "foo(x)" and
whose description is "does foo" — the claimed ApiSignature does not occur
in the output. -/
theorem c1_counterexample_no_does_foo_description :
    ((extractAllApis c1sec2 "md").apis.all
      (fun a => !(a.signature == "foo(x)" && a.description == "does foo"))) = true := by
  decide

/-- C1 amended: parsing example A yields exactly the two claimed sections
with empty codeBlocks and links; extracting from the second section's body
with declaredKind markdown yields exactly one ApiSignature
{signature "foo(x)", description "API method", category "inline"} — the
inline-code pass runs before the bullet-list pass, so first-occurrence
dedup keeps its generic description rather than the list pass's
"does foo". -/
theorem c1_example_a_parse_and_extract :
    parseMarkdown c1content =
      ⟨[⟨"Intro", 1, "Hello"⟩, ⟨"API", 2, "* `foo(x)` - does foo"⟩], [], []⟩ ∧
    extractAllApis c1sec2 "md" =
      ⟨[⟨"foo(x)", "API method", some "inline"⟩], true⟩ := by
  exact ⟨by decide, by decide⟩

/-- C6 counterexample: extracting from the example B manifest with
contentType "json" yields no entries at all, refuting the claimed
export-category entries for ".", "main" and "types". -/
theorem c6_counterexample_manifest_yields_nothing :
    (extractAllApis c6manifest "json").apis = [] := by decide

/-- C6 amended: the package-manifest branch only runs when the content
itself contains the substring "package.json"; for any manifest content
without that substring (the example B manifest included), extraction with
contentType "json" yields no entries. -/
theorem c6_manifest_guard_requires_substring (content : String)
    (h : JsStr.jsIncludes content "package.json" = false) :
    (extractAllApis content "json").apis = [] := by
  unfold extractAllApis extractApisRaw
  simp [h, dedupBySignature]

/-- C6 witness: the example B manifest satisfies the guard hypothesis. -/
theorem c6_manifest_guard_requires_substring_witness :
    JsStr.jsIncludes c6manifest "package.json" = false ∧
    (extractAllApis c6manifest "json").apis = [] :=
  ⟨by decide, c6_manifest_guard_requires_substring c6manifest (by decide)⟩

/-- C8: the crawler reports success exactly when the deduplicated record
list is non-empty, and on an empty record list it reports failure with the
"No APIs found" error message. -/
theorem c8_crawler_success_iff_records (net : Net) (url : String) (maxPages : Nat) :
    (scrapeDocumentation net url maxPages).success =
      !(scrapeDocumentation net url maxPages).apis.isEmpty ∧
    (scrapeDocumentation net url maxPages).error =
      (if (scrapeDocumentation net url maxPages).apis.isEmpty then
        some "No APIs found" else none) := by
  unfold scrapeDocumentation
  cases hd : Scrape.dedupScrape
      (Scrape.crawlLoop net ((Scrape.SITE_PATTERNS.find?
        (fun kv => JsStr.jsIncludes url kv.1)).map Prod.snd) maxPages [url] [] [] 0).1
      [] with
  | nil => simp [hd]
  | cons a rest => simp [hd]

theorem strFoldl2_data {α : Type} (g h : α → String) (l : List α) (acc : String) :
    (l.foldl (fun a x => a ++ g x ++ " - " ++ h x ++ "\n\n") acc).data =
      acc.data ++ (l.map (fun x => (g x ++ " - " ++ h x ++ "\n\n").data)).flatten := by
  induction l generalizing acc with
  | nil => simp
  | cons x rest ih => simp [ih]

/-- C9: the output assembler is deterministic — byte-identical output on
identical input — and renders exactly the fixed four-section template plus
the closing attribution line (`generateOutputSpec`). -/
theorem c9_generate_output_deterministic :
    (∀ i1 i2 : GenInput, i1 = i2 → generateOutput i1 = generateOutput i2) ∧
    (∀ i : GenInput, generateOutput i = generateOutputSpec i) := by
  constructor
  · intro i1 i2 h
    rw [h]
  · intro i
    unfold generateOutput generateOutputSpec
    apply String.ext
    simp only [strFoldl2_data, String.data_append, String.data_join, List.map_map]
    simp [Function.comp_def]

/-- C9 witness at a concrete input. -/
theorem c9_generate_output_deterministic_witness :
    generateOutput ⟨"lodash", "u", "p", [], [], []⟩ =
      generateOutput ⟨"lodash", "u", "p", [], [], []⟩ ∧
    generateOutput ⟨"lodash", "u", "p", [], [], []⟩ =
      generateOutputSpec ⟨"lodash", "u", "p", [], [], []⟩ :=
  ⟨c9_generate_output_deterministic.1 _ _ rfl, c9_generate_output_deterministic.2 _⟩

/-! ## Budget-invariant lemmas for the retriever -/

theorem candidateLoop_budget (net : Net) (b br : String) (mf : Nat)
    (paths : List String) (files : List FetchedFile) (h : files.length ≤ mf) :
    (FetchDocs.candidateLoop net b br mf paths files).length ≤ mf := by
  induction paths generalizing files with
  | nil => simpa [FetchDocs.candidateLoop] using h
  | cons p rest ih =>
    simp only [FetchDocs.candidateLoop]
    split
    · exact h
    · split
      · exact ih files h
      · split
        · rename_i hlt _ _
          apply ih
          simp only [List.length_append, List.length_cons, List.length_nil]
          omega
        · exact ih files h

theorem docsDirFileLoop_budget (net : Net) (mf : Nat) (dir : String)
    (items : List Js.JsonVal) (files : List FetchedFile) (h : files.length ≤ mf) :
    (FetchDocs.docsDirFileLoop net mf dir items files).1.length ≤ mf := by
  induction items generalizing files with
  | nil => simpa [FetchDocs.docsDirFileLoop] using h
  | cons fv rest ih =>
    simp only [FetchDocs.docsDirFileLoop]
    split
    · exact h
    · split
      · split
        · split
          · split
            · exact ih files h
            · split
              · split
                · rename_i hlt _ _ _ _ _
                  apply ih
                  simp only [List.length_append, List.length_cons, List.length_nil]
                  omega
                · exact ih files h
              · exact ih files h
          · exact ih files h
        · exact h
      · exact ih files h

theorem docsDirsLoop_budget (net : Net) (o r : String) (mf : Nat)
    (dirs : List String) (files : List FetchedFile) (h : files.length ≤ mf) :
    (FetchDocs.docsDirsLoop net o r mf dirs files).length ≤ mf := by
  induction dirs generalizing files with
  | nil => simpa [FetchDocs.docsDirsLoop] using h
  | cons d rest ih =>
    simp only [FetchDocs.docsDirsLoop]
    split
    · exact h
    · split
      · exact h
      · exact ih files h
      · split
        · exact h
        · split
          · rename_i items hparse hpair files' heq
            have hb := docsDirFileLoop_budget net mf d items files h
            rw [heq] at hb
            exact hb
          · rename_i items hparse hpair files' heq
            apply ih
            have hb := docsDirFileLoop_budget net mf d items files h
            rw [heq] at hb
            exact hb
        · exact ih files h
        · exact h

theorem docsDiscovery_budget (net : Net) (o r : String) (mf : Nat)
    (files : List FetchedFile) (h : files.length ≤ mf) :
    (FetchDocs.docsDiscovery net o r mf files).length ≤ mf := by
  unfold FetchDocs.docsDiscovery
  split
  · exact h
  · exact docsDirsLoop_budget net o r mf _ files h
  · split
    · exact h
    · exact docsDirsLoop_budget net o r mf _ files h

theorem typesFileLoop_budget (net : Net) (mf : Nat) (loc : String)
    (items : List Js.JsonVal) (files : List FetchedFile) (h : files.length ≤ mf) :
    (FetchDocs.typesFileLoop net mf loc items files).1.length ≤ mf := by
  induction items generalizing files with
  | nil => simpa [FetchDocs.typesFileLoop] using h
  | cons fv rest ih =>
    simp only [FetchDocs.typesFileLoop]
    split
    · exact h
    · split
      · split
        · split
          · split
            · split
              · rename_i hlt _ _ _ _ _
                apply ih
                simp only [List.length_append, List.length_cons, List.length_nil]
                omega
              · exact ih files h
            · exact ih files h
          · exact ih files h
        · exact h
      · exact ih files h

theorem typesLocationsLoop_budget (net : Net) (o r : String) (mf : Nat)
    (locs : List String) (files : List FetchedFile) (h : files.length ≤ mf) :
    (FetchDocs.typesLocationsLoop net o r mf locs files).length ≤ mf := by
  induction locs generalizing files with
  | nil => simpa [FetchDocs.typesLocationsLoop] using h
  | cons loc rest ih =>
    simp only [FetchDocs.typesLocationsLoop]
    split
    · exact h
    · split
      · exact h
      · exact ih files h
      · split
        · exact h
        · split
          · rename_i items hparse hpair files' heq
            have hb := typesFileLoop_budget net mf loc items files h
            rw [heq] at hb
            exact hb
          · rename_i items hparse hpair files' heq
            apply ih
            have hb := typesFileLoop_budget net mf loc items files h
            rw [heq] at hb
            exact hb
        · exact ih files h

theorem pkgFileLoop_budget (net : Net) (mf : Nat) (pkgName : String)
    (items : List Js.JsonVal) (files : List FetchedFile) (h : files.length ≤ mf) :
    (FetchDocs.pkgFileLoop net mf pkgName items files).length ≤ mf := by
  induction items generalizing files with
  | nil => simpa [FetchDocs.pkgFileLoop] using h
  | cons fv rest ih =>
    simp only [FetchDocs.pkgFileLoop]
    split
    · exact h
    · split
      · split
        · split
          · rename_i hlt _ _ _ _
            apply ih
            simp only [List.length_append, List.length_cons, List.length_nil]
            omega
          · exact ih files h
        · exact ih files h
      · exact ih files h

theorem monorepoPkgLoop_budget (net : Net) (o r : String) (mf : Nat)
    (pkgs : List Js.JsonVal) (files : List FetchedFile) (h : files.length ≤ mf) :
    (FetchDocs.monorepoPkgLoop net o r mf pkgs files).1.length ≤ mf := by
  induction pkgs generalizing files with
  | nil => simpa [FetchDocs.monorepoPkgLoop] using h
  | cons pv rest ih =>
    simp only [FetchDocs.monorepoPkgLoop]
    split
    · exact h
    · split
      · have hlt : files.length < mf := by omega
        have hgrow : ∀ e : FetchedFile, (files ++ [e]).length ≤ mf := by
          intro e
          simp only [List.length_append, List.length_cons, List.length_nil]
          omega
        split
        · exact h
        · exact ih files h
        · split
          · exact h
          · split
            · split
              · exact hgrow _
              · exact ih _ (hgrow _)
              · split
                · split
                  · exact hgrow _
                  · exact ih _ (pkgFileLoop_budget net mf _ _ _ (hgrow _))
                  · exact ih _ (hgrow _)
                  · exact hgrow _
                · exact ih _ (hgrow _)
            · exact h
      · exact ih files h

theorem monorepoBlock_budget (net : Net) (o r : String) (mf : Nat)
    (files : List FetchedFile) (h : files.length ≤ mf) :
    (FetchDocs.monorepoBlock net o r mf files).length ≤ mf := by
  unfold FetchDocs.monorepoBlock
  split
  · exact h
  · exact h
  · split
    · exact h
    · exact monorepoPkgLoop_budget net o r mf _ files h
    · exact h
    · exact h

theorem pushMainFile_budget (net : Net) (b br : String) (mf : Nat)
    (v : Option Js.JsonVal) (files : List FetchedFile) (h : files.length ≤ mf) :
    (FetchDocs.pushMainFile net b br mf v files).length ≤ mf := by
  unfold FetchDocs.pushMainFile
  split
  · rename_i hc
    simp only [Bool.and_eq_true, decide_eq_true_eq] at hc
    split
    · split
      · simp only [List.length_append, List.length_cons, List.length_nil]
        omega
      · exact h
    · exact h
  · exact h

theorem pushTypesFile_budget (net : Net) (b br : String) (mf : Nat)
    (v : Option Js.JsonVal) (files : List FetchedFile) (h : files.length ≤ mf) :
    (FetchDocs.pushTypesFile net b br mf v files).length ≤ mf := by
  unfold FetchDocs.pushTypesFile
  split
  · rename_i hc
    simp only [Bool.and_eq_true, decide_eq_true_eq] at hc
    split
    · simp only [List.length_append, List.length_cons, List.length_nil]
      omega
    · exact h
  · exact h

theorem mainTypesBlock_budget (net : Net) (b br : String) (mf : Nat)
    (files : List FetchedFile) (h : files.length ≤ mf) :
    (FetchDocs.mainTypesBlock net b br mf files).length ≤ mf := by
  unfold FetchDocs.mainTypesBlock
  split
  · exact h
  · split
    · exact h
    · split
      · exact h
      · exact h
      · exact pushTypesFile_budget net b br mf _ _ (pushMainFile_budget net b br mf _ _ h)
theorem ite_docsDiscovery_budget (net : Net) (o r : String) (mf : Nat)
    (c : Prop) [Decidable c] (l : List FetchedFile) (hl : l.length ≤ mf) :
    (if c then FetchDocs.docsDiscovery net o r mf l else l).length ≤ mf := by
  split
  · exact docsDiscovery_budget net o r mf l hl
  · exact hl

theorem ite_typesBlock_budget (net : Net) (o r : String) (mf : Nat)
    (c : Prop) [Decidable c] (l : List FetchedFile) (hl : l.length ≤ mf) :
    (if c then FetchDocs.typesBlock net o r mf l else l).length ≤ mf := by
  split
  · exact typesLocationsLoop_budget net o r mf _ l hl
  · exact hl

theorem ite_monorepoBlock_budget (net : Net) (o r : String) (mf : Nat)
    (c : Prop) [Decidable c] (l : List FetchedFile) (hl : l.length ≤ mf) :
    (if c then FetchDocs.monorepoBlock net o r mf l else l).length ≤ mf := by
  split
  · exact monorepoBlock_budget net o r mf l hl
  · exact hl

theorem ite_mainTypesBlock_budget (net : Net) (b br : String) (mf : Nat)
    (c : Prop) [Decidable c] (l : List FetchedFile) (hl : l.length ≤ mf) :
    (if c then FetchDocs.mainTypesBlock net b br mf l else l).length ≤ mf := by
  split
  · exact mainTypesBlock_budget net b br mf l hl
  · exact hl

/-- C4: for every maxFiles = N, one invocation of the retriever returns at
most N file entries in total, across the ranked candidate paths, the
documentation-directory discovery, the type-definition probing, the
monorepo package iteration, and the manifest-declared main/types
fetches. -/
theorem c4_retriever_respects_max_files (net : Net) (repoUrl : String)
    (searchType : SearchType) (maxFiles : Nat) :
    (fetchAllDocs net repoUrl searchType maxFiles).files.length ≤ maxFiles := by
  unfold fetchAllDocs
  dsimp only
  cases hp : FetchDocs.probeBranch net
      (FetchDocs.stripSlash (JsStr.jsReplaceFirst repoUrl "github.com"
        "raw.githubusercontent.com")) with
  | error m => simp
  | ok branch =>
    dsimp only
    apply ite_mainTypesBlock_budget
    apply ite_monorepoBlock_budget
    apply ite_typesBlock_budget
    apply ite_docsDiscovery_budget
    exact candidateLoop_budget _ _ _ _ _ [] (by simp)

/-! ## Preservation lemmas for docs-phase file properties -/

theorem candidateLoop_all (P : FetchedFile → Bool) (net : Net) (b br : String)
    (mf : Nat) (paths : List String) (files : List FetchedFile)
    (hmk : ∀ path ∈ paths, ∀ content, FetchDocs.shouldSkipFile path = false →
      P (FetchDocs.mkCandidateEntry path content) = true)
    (h : files.all P = true) :
    (FetchDocs.candidateLoop net b br mf paths files).all P = true := by
  induction paths generalizing files with
  | nil => simpa [FetchDocs.candidateLoop] using h
  | cons p rest ih =>
    have hmk' : ∀ path ∈ rest, ∀ content, FetchDocs.shouldSkipFile path = false →
        P (FetchDocs.mkCandidateEntry path content) = true :=
      fun path hmem content hskip => hmk path (List.mem_cons_of_mem p hmem) content hskip
    simp only [FetchDocs.candidateLoop]
    split
    · exact h
    · split
      · exact ih files hmk' h
      · split
        · apply ih _ hmk'
          rw [List.all_append, h, Bool.true_and]
          simp only [List.all_cons, List.all_nil, Bool.and_true]
          apply hmk p (List.mem_cons_self p rest)
          simp_all only [Bool.not_eq_true]
        · exact ih files hmk' h

theorem docsDirFileLoop_all (P : FetchedFile → Bool) (net : Net) (mf : Nat)
    (dir : String) (items : List Js.JsonVal) (files : List FetchedFile)
    (hmk : ∀ filePath name content, FetchDocs.shouldSkipFile filePath = false →
      P (FetchDocs.mkDocsEntry filePath name content) = true)
    (h : files.all P = true) :
    (FetchDocs.docsDirFileLoop net mf dir items files).1.all P = true := by
  induction items generalizing files with
  | nil => simpa [FetchDocs.docsDirFileLoop] using h
  | cons fv rest ih =>
    simp only [FetchDocs.docsDirFileLoop]
    split
    · exact h
    · split
      · split
        · split
          · split
            · exact ih files h
            · split
              · split
                · apply ih
                  rw [List.all_append, h, Bool.true_and]
                  simp only [List.all_cons, List.all_nil, Bool.and_true]
                  apply hmk
                  simp_all only [Bool.not_eq_true]
                · exact ih files h
              · exact ih files h
          · exact ih files h
        · exact h
      · exact ih files h

theorem docsDirsLoop_all (P : FetchedFile → Bool) (net : Net) (o r : String)
    (mf : Nat) (dirs : List String) (files : List FetchedFile)
    (hmk : ∀ filePath name content, FetchDocs.shouldSkipFile filePath = false →
      P (FetchDocs.mkDocsEntry filePath name content) = true)
    (h : files.all P = true) :
    (FetchDocs.docsDirsLoop net o r mf dirs files).all P = true := by
  induction dirs generalizing files with
  | nil => simpa [FetchDocs.docsDirsLoop] using h
  | cons d rest ih =>
    simp only [FetchDocs.docsDirsLoop]
    split
    · exact h
    · split
      · exact h
      · exact ih files h
      · split
        · exact h
        · split
          · rename_i items hparse hpair files' heq
            have hb := docsDirFileLoop_all P net mf d items files hmk h
            rw [heq] at hb
            exact hb
          · rename_i items hparse hpair files' heq
            apply ih
            have hb := docsDirFileLoop_all P net mf d items files hmk h
            rw [heq] at hb
            exact hb
        · exact ih files h
        · exact h

theorem docsDiscovery_all (P : FetchedFile → Bool) (net : Net) (o r : String)
    (mf : Nat) (files : List FetchedFile)
    (hmk : ∀ filePath name content, FetchDocs.shouldSkipFile filePath = false →
      P (FetchDocs.mkDocsEntry filePath name content) = true)
    (h : files.all P = true) :
    (FetchDocs.docsDiscovery net o r mf files).all P = true := by
  unfold FetchDocs.docsDiscovery
  split
  · exact h
  · exact docsDirsLoop_all P net o r mf _ files hmk h
  · split
    · exact h
    · exact docsDirsLoop_all P net o r mf _ files hmk h

theorem mkCandidateEntry_path (p c : String) :
    (FetchDocs.mkCandidateEntry p c).path = p := by
  unfold FetchDocs.mkCandidateEntry
  dsimp only
  split
  · split <;> rfl
  · rfl

theorem mkDocsEntry_path (fp nm c : String) :
    (FetchDocs.mkDocsEntry fp nm c).path = fp := by
  unfold FetchDocs.mkDocsEntry
  dsimp only
  split <;> rfl

theorem skipFalse_noChangelogMd (p : String)
    (h : FetchDocs.shouldSkipFile p = false) :
    JsStr.jsIncludes (JsStr.jsToUpper p) "CHANGELOG.MD" = false := by
  unfold FetchDocs.shouldSkipFile at h
  rw [List.any_eq_false] at h
  have hmem : "CHANGELOG.md" ∈ FetchDocs.SKIP_FILES := by decide
  have := h "CHANGELOG.md" hmem
  simpa using this

/-- C5 counterexample: for a repository whose `docs/` directory lists
`changelog.rst`, the docs phase returns a file whose path contains
"CHANGELOG" case-insensitively — the deny-list compares against
"CHANGELOG.MD" with the extension, so `changelog.rst` slips through. -/
theorem c5_counterexample_changelog_rst_fetched :
    ((fetchAllDocs netChangelogRst "https://github.com/o/r" .docs 5).files.any
      (fun f => JsStr.jsIncludes (JsStr.jsToUpper f.path) "CHANGELOG")) = true := by
  decide

/-- C5 amended: in the docs phase (ranked candidate paths plus the
documentation-directory discovery — the only passes that consult the
deny-list), no returned path contains the deny-listed substring
"CHANGELOG.MD" in any letter case; a path containing "CHANGELOG" with a
different extension, or one returned by the types/all-phase passes, can
still occur. -/
theorem c5_docs_phase_denylist (net : Net) (repoUrl : String) (mf : Nat) :
    ((fetchAllDocs net repoUrl .docs mf).files.all
      (fun f => !(JsStr.jsIncludes (JsStr.jsToUpper f.path) "CHANGELOG.MD"))) = true := by
  have hmkC : ∀ path content, FetchDocs.shouldSkipFile path = false →
      (!(JsStr.jsIncludes (JsStr.jsToUpper
        (FetchDocs.mkCandidateEntry path content).path) "CHANGELOG.MD")) = true := by
    intro path content hskip
    rw [mkCandidateEntry_path, skipFalse_noChangelogMd path hskip]
    rfl
  have hmkD : ∀ fp nm content, FetchDocs.shouldSkipFile fp = false →
      (!(JsStr.jsIncludes (JsStr.jsToUpper
        (FetchDocs.mkDocsEntry fp nm content).path) "CHANGELOG.MD")) = true := by
    intro fp nm content hskip
    rw [mkDocsEntry_path, skipFalse_noChangelogMd fp hskip]
    rfl
  unfold fetchAllDocs
  dsimp only
  cases hp : FetchDocs.probeBranch net
      (FetchDocs.stripSlash (JsStr.jsReplaceFirst repoUrl "github.com"
        "raw.githubusercontent.com")) with
  | error m => rfl
  | ok branch =>
    dsimp only
    simp only [show decide (SearchType.docs = SearchType.source) = false from rfl,
      show decide (SearchType.docs = SearchType.types) = false from rfl,
      show decide (SearchType.docs = SearchType.all) = false from rfl,
      show decide (SearchType.docs = SearchType.docs) = true from rfl,
      Bool.or_false, Bool.false_or, Bool.and_false, Bool.and_true,
      show ((SearchType.docs = SearchType.docs) = True) from by simp,
      show ((decide True) = true) from by simp,
      show ((false = true) = False) from by simp, if_false]
    have base := candidateLoop_all
      (fun f => !(JsStr.jsIncludes (JsStr.jsToUpper f.path) "CHANGELOG.MD"))
      net (FetchDocs.stripSlash (JsStr.jsReplaceFirst repoUrl "github.com"
        "raw.githubusercontent.com")) branch mf
      (FetchDocs.docsCandidatePaths ++ [] ++ []) [] (fun p _ c h => hmkC p c h) rfl
    split_ifs <;>
      first
        | exact base
        | exact docsDiscovery_all
            (fun f => !(JsStr.jsIncludes (JsStr.jsToUpper f.path) "CHANGELOG.MD"))
            net _ _ mf _ (fun fp nm c h => hmkD fp nm c h) base

theorem jsSubstring_len_le (s : String) (n : Nat) :
    (JsStr.jsSubstring s 0 n).length ≤ n := by
  unfold JsStr.jsSubstring
  dsimp only
  show ((s.data.drop _).take _).length ≤ n
  simp only [List.length_take, List.length_drop]
  omega

theorem mkDocsEntry_content_le (fp nm c : String) :
    (FetchDocs.mkDocsEntry fp nm c).content.length ≤ 200000 := by
  unfold FetchDocs.mkDocsEntry
  dsimp only
  split
  · exact jsSubstring_len_le c 200000
  · rename_i htok
    unfold FetchDocs.estimateTokens at htok
    show c.length ≤ 200000
    omega

theorem mkCandidateEntry_content_le (p c : String) (hp : p ≠ "package.json") :
    (FetchDocs.mkCandidateEntry p c).content.length ≤ 200000 := by
  unfold FetchDocs.mkCandidateEntry
  dsimp only
  by_cases htok : FetchDocs.estimateTokens c > 50000
  · rw [if_pos htok, if_neg hp]
    exact jsSubstring_len_le c 200000
  · rw [if_neg htok]
    show c.length ≤ 200000
    unfold FetchDocs.estimateTokens at htok
    omega

/-- C2 counterexample: a 200001-character `big.d.ts` returned by the
type-definition pass is stored whole and carries no truncated mark. -/
theorem c2_counterexample_types_pass_skips_truncation :
    (fetchAllDocs netBigDts "https://github.com/o/r" .types 5).files =
      [⟨"big.d.ts", bigA, "d.ts", none, none, none, none⟩] ∧
    bigA.length = 200001 := by
  refine ⟨rfl, ?_⟩
  show (List.replicate 200001 (Char.ofNat 97)).length = 200001
  exact List.length_replicate _ _

/-- C2 amended: the 200000-character truncation boundary (with the
`package.json` whole-file exemption, tagged `largeFile`) holds for the
entries built by the ranked candidate-path pass and, without any
exemption, for the documentation-directory pass — hence every docs-phase
file stores at most 200000 characters; the type-definition, monorepo, and
manifest-declared fetches of the types/all/source phases store content
whole without a truncated mark (see the counterexample). -/
theorem c2_truncation_boundary_docs_passes :
    (∀ path content : String, 200000 < content.length →
      (path = "package.json" ∧
        (FetchDocs.mkCandidateEntry path content).content = content ∧
        (FetchDocs.mkCandidateEntry path content).largeFile = some true ∧
        (FetchDocs.mkCandidateEntry path content).truncated = none) ∨
      ((FetchDocs.mkCandidateEntry path content).truncated = some true ∧
        (FetchDocs.mkCandidateEntry path content).content.length ≤ 200000 ∧
        (FetchDocs.mkCandidateEntry path content).originalSize = some content.length)) ∧
    (∀ filePath name content : String, 200000 < content.length →
      (FetchDocs.mkDocsEntry filePath name content).truncated = some true ∧
      (FetchDocs.mkDocsEntry filePath name content).content.length ≤ 200000) ∧
    (∀ (net : Net) (repoUrl : String) (mf : Nat),
      ((fetchAllDocs net repoUrl .docs mf).files.all
        (fun f => decide (f.content.length ≤ 200000))) = true) := by
  refine ⟨?_, ?_, ?_⟩
  · intro path content hlen
    have htok : FetchDocs.estimateTokens content > 50000 := by
      unfold FetchDocs.estimateTokens
      omega
    by_cases hpj : path = "package.json"
    · left
      refine ⟨hpj, ?_, ?_, ?_⟩ <;>
        (unfold FetchDocs.mkCandidateEntry; dsimp only; rw [if_pos htok, if_pos hpj])
    · right
      have hle := mkCandidateEntry_content_le path content hpj
      refine ⟨?_, hle, ?_⟩ <;>
        (unfold FetchDocs.mkCandidateEntry; dsimp only; rw [if_pos htok, if_neg hpj])
  · intro filePath name content hlen
    have htok : FetchDocs.estimateTokens content > 50000 := by
      unfold FetchDocs.estimateTokens
      omega
    refine ⟨?_, mkDocsEntry_content_le filePath name content⟩
    unfold FetchDocs.mkDocsEntry
    dsimp only
    rw [if_pos htok]
  · intro net repoUrl mf
    have hpaths : (FetchDocs.docsCandidatePaths ++ ([] : List String) ++
        ([] : List String)).all (fun p => p ≠ "package.json") = true := by decide
    have hmkC : ∀ path ∈ FetchDocs.docsCandidatePaths ++ ([] : List String) ++
        ([] : List String), ∀ content, FetchDocs.shouldSkipFile path = false →
        (decide ((FetchDocs.mkCandidateEntry path content).content.length ≤ 200000)) = true := by
      intro path hmem content _
      have hne : path ≠ "package.json" := by
        have := List.all_eq_true.mp hpaths path hmem
        simpa using this
      simpa using mkCandidateEntry_content_le path content hne
    have hmkD : ∀ fp nm content, FetchDocs.shouldSkipFile fp = false →
        (decide ((FetchDocs.mkDocsEntry fp nm content).content.length ≤ 200000)) = true := by
      intro fp nm content _
      simpa using mkDocsEntry_content_le fp nm content
    unfold fetchAllDocs
    dsimp only
    cases hp : FetchDocs.probeBranch net
        (FetchDocs.stripSlash (JsStr.jsReplaceFirst repoUrl "github.com"
          "raw.githubusercontent.com")) with
    | error m => rfl
    | ok branch =>
      dsimp only
      simp only [show decide (SearchType.docs = SearchType.source) = false from rfl,
        show decide (SearchType.docs = SearchType.types) = false from rfl,
        show decide (SearchType.docs = SearchType.all) = false from rfl,
        show decide (SearchType.docs = SearchType.docs) = true from rfl,
        Bool.or_false, Bool.false_or, Bool.and_false, Bool.and_true,
        show ((SearchType.docs = SearchType.docs) = True) from by simp,
        show ((decide True) = true) from by simp,
        show ((false = true) = False) from by simp, if_false]
      have base := candidateLoop_all
        (fun f => decide (f.content.length ≤ 200000))
        net (FetchDocs.stripSlash (JsStr.jsReplaceFirst repoUrl "github.com"
          "raw.githubusercontent.com")) branch mf
        (FetchDocs.docsCandidatePaths ++ [] ++ []) [] hmkC rfl
      split_ifs <;>
        first
          | exact base
          | exact docsDiscovery_all
              (fun f => decide (f.content.length ≤ 200000))
              net _ _ mf _ (fun fp nm c h => hmkD fp nm c h) base


/-- C2 witness: the truncation-boundary clauses applied to a
200001-character body. -/
theorem c2_truncation_boundary_docs_passes_witness :
    200000 < bigA.length ∧
    ((("API.md" : String) = "package.json" ∧
        (FetchDocs.mkCandidateEntry "API.md" bigA).content = bigA ∧
        (FetchDocs.mkCandidateEntry "API.md" bigA).largeFile = some true ∧
        (FetchDocs.mkCandidateEntry "API.md" bigA).truncated = none) ∨
      ((FetchDocs.mkCandidateEntry "API.md" bigA).truncated = some true ∧
        (FetchDocs.mkCandidateEntry "API.md" bigA).content.length ≤ 200000 ∧
        (FetchDocs.mkCandidateEntry "API.md" bigA).originalSize = some bigA.length)) ∧
    ((FetchDocs.mkDocsEntry "docs/a.md" "a.md" bigA).truncated = some true ∧
      (FetchDocs.mkDocsEntry "docs/a.md" "a.md" bigA).content.length ≤ 200000) := by
  have hlen : 200000 < bigA.length := by
    have h1 : bigA.length = 200001 := by
      show (List.replicate 200001 (Char.ofNat 97)).length = 200001
      exact List.length_replicate _ _
    omega
  exact ⟨hlen, c2_truncation_boundary_docs_passes.1 "API.md" bigA hlen,
    c2_truncation_boundary_docs_passes.2.1 "docs/a.md" "a.md" bigA hlen⟩

/-! ## C7: failure handling in the repository source resolver -/

/-- C7 counterexample: the repository-metadata fetch succeeds, yet a
single remote-call failure — the language-histogram fetch rejecting —
aborts the whole resolution with `success = false` instead of degrading
that facet alone. -/
theorem c7_counterexample_languages_exn_aborts :
    analyzeRepository netLangExn "https://github.com/o/r" = failureResult "network down" ∧
    netLangExn (repoApiUrlOf "https://github.com/o/r") =
      .ok "\x7b\"name\":\"r\",\"has_wiki\":true\x7d" ∧
    netLangExn (languagesUrlOf "https://github.com/o/r") = .exn "network down" := by
  refine ⟨?_, rfl, rfl⟩
  rfl

/-- C7 amended: readme scanning and the root-contents block degrade to
facet-local defaults (resolution keeps `success = true`), and a failing
metadata fetch — non-ok status or rejection — yields the failure result
with empty collections and the default structure; but the languages fetch
is not facet-protected: its rejection also aborts the whole resolution
(see the counterexample). -/
theorem c7_failure_isolation :
    (∀ (net : Net) (repoUrl : String) (status : Nat) (body : String),
      net (repoApiUrlOf repoUrl) = .err status body →
      analyzeRepository net repoUrl =
        failureResult ("Failed to fetch repository metadata: " ++ toString status)) ∧
    (∀ (net : Net) (repoUrl m : String),
      net (repoApiUrlOf repoUrl) = .exn m →
      analyzeRepository net repoUrl = failureResult m) ∧
    (∀ (net : Net) (repoUrl body m : String),
      net (repoApiUrlOf repoUrl) = .ok body →
      (Js.jsonParse body).isSome = true →
      net (languagesUrlOf repoUrl) = .exn m →
      analyzeRepository net repoUrl = failureResult m) ∧
    ((analyzeRepository netReadmeExn "https://github.com/o/r").success = true ∧
      (analyzeRepository netReadmeExn "https://github.com/o/r").documentationSources.all
        (fun s => decide (s.type ≠ "readme")) = true ∧
      (analyzeRepository netReadmeExn "https://github.com/o/r").languages =
        [⟨"TypeScript", some 75⟩, ⟨"JavaScript", some 25⟩]) ∧
    ((analyzeRepository netContentsExn "https://github.com/o/r").success = true ∧
      (analyzeRepository netContentsExn "https://github.com/o/r").packageManager = none ∧
      (analyzeRepository netContentsExn "https://github.com/o/r").projectStructure =
        Analyze.psDefault) := by
  refine ⟨?_, ?_, ?_,
    ⟨by decide, by decide, by with_unfolding_all rfl⟩,
    ⟨by decide, by with_unfolding_all rfl, by with_unfolding_all rfl⟩⟩
  · intro net repoUrl status body h
    unfold repoApiUrlOf ownerRepoOf at h
    dsimp only at h
    unfold analyzeRepository
    dsimp only
    rw [h]
    rfl
  · intro net repoUrl m h
    unfold repoApiUrlOf ownerRepoOf at h
    dsimp only at h
    unfold analyzeRepository
    dsimp only
    rw [h]
    rfl
  · intro net repoUrl body m hmeta hparse hlang
    obtain ⟨repoData, hrd⟩ := Option.isSome_iff_exists.mp hparse
    unfold repoApiUrlOf ownerRepoOf at hmeta
    dsimp only at hmeta
    unfold languagesUrlOf repoApiUrlOf ownerRepoOf at hlang
    dsimp only at hlang
    unfold analyzeRepository
    dsimp only
    rw [hmeta]
    dsimp only
    rw [hrd]
    dsimp only
    rw [hlang]
    rfl

/-- C7 witness: the metadata-failure and languages-rejection clauses
applied to concrete repositories. -/
theorem c7_failure_isolation_witness :
    analyzeRepository netMetaErr "https://github.com/o/r" =
      failureResult ("Failed to fetch repository metadata: " ++ toString (404 : Nat)) ∧
    analyzeRepository netLangExn "https://github.com/o/r" = failureResult "network down" :=
  ⟨c7_failure_isolation.1 netMetaErr "https://github.com/o/r" 404
      "\x7b\"message\":\"Not Found\"\x7d" rfl,
   c7_failure_isolation.2.2.1 netLangExn "https://github.com/o/r"
      "\x7b\"name\":\"r\",\"has_wiki\":true\x7d" "network down" rfl rfl rfl⟩

/-! ## C10: the unterminated-fence tail of parse-markdown -/

theorem pmStep_openFence (st : ParseMd.PmState) (line : String)
    (hf : JsStr.jsStartsWith (JsStr.jsTrim line) "```" = true)
    (ho : st.inCodeBlock = false) :
    ParseMd.pmStep st line = { st with inCodeBlock := true } := by
  unfold ParseMd.pmStep
  simp [hf, ho]

theorem pmStep_inCode (st : ParseMd.PmState) (line : String)
    (hf : JsStr.jsStartsWith (JsStr.jsTrim line) "```" = false)
    (hi : st.inCodeBlock = true) :
    ParseMd.pmStep st line =
      { st with currentCodeBlock := st.currentCodeBlock ++ [line] } := by
  unfold ParseMd.pmStep
  simp [hf, hi]

theorem pmFoldl_inCode (suffix : List String) :
    ∀ (st : ParseMd.PmState), st.inCodeBlock = true →
    (∀ l ∈ suffix, JsStr.jsStartsWith (JsStr.jsTrim l) "```" = false) →
    List.foldl ParseMd.pmStep st suffix =
      { st with currentCodeBlock := st.currentCodeBlock ++ suffix } := by
  induction suffix with
  | nil => intro st _ _; simp
  | cons l rest ih =>
    intro st h hno
    rw [List.foldl_cons]
    rw [pmStep_inCode st l (hno l (by simp)) h]
    rw [ih { st with currentCodeBlock := st.currentCodeBlock ++ [l] } h
      (fun x hx => hno x (by simp [hx]))]
    simp

/-- C10: a fence opened while outside a code block and never closed makes
the scanner consume the whole tail into the discarded buffer: the parse of
the input equals the parse of just the lines before the fence, so no line
after the opening fence reaches `codeBlocks` or any section content. -/
theorem c10_unterminated_fence_drops_tail
    (content fenceLine : String) (pre suffix : List String)
    (hsplit : JsStr.jsSplit content "\n" = pre ++ fenceLine :: suffix)
    (hfence : JsStr.jsStartsWith (JsStr.jsTrim fenceLine) "```" = true)
    (hout : (pre.foldl ParseMd.pmStep ParseMd.pmInit).inCodeBlock = false)
    (hnof : ∀ l ∈ suffix, JsStr.jsStartsWith (JsStr.jsTrim l) "```" = false) :
    parseMarkdown content = ParseMd.pmFinish (pre.foldl ParseMd.pmStep ParseMd.pmInit) := by
  unfold parseMarkdown
  rw [hsplit, List.foldl_append, List.foldl_cons]
  rw [pmStep_openFence (pre.foldl ParseMd.pmStep ParseMd.pmInit) fenceLine hfence hout]
  rw [pmFoldl_inCode suffix
    { pre.foldl ParseMd.pmStep ParseMd.pmInit with inCodeBlock := true } rfl hnof]
  rfl

/-- C10 witness: the unterminated-fence theorem applied to the concrete
five-line input whose fence on line three is never closed. -/
theorem c10_unterminated_fence_drops_tail_witness :
    parseMarkdown c10content =
      ParseMd.pmFinish (c10pre.foldl ParseMd.pmStep ParseMd.pmInit) :=
  c10_unterminated_fence_drops_tail c10content "```js" c10pre c10suffix
    (by decide) (by decide) (by decide) (by decide)
